import Mathlib

/-!
Verification of the trailers-scraper pipeline (src/scraper.py, src/downloader.py,
src/utils.py, src/app.py) against its natural-language specification.

Strings are modelled as `List Char`; machine-level concerns (HTTP transport,
filesystem IO, browser automation) are abstracted into explicit outcome values,
while every decision made by the Python code on those outcomes is translated
literally.
-/

/-! ### Basic character classes and list-of-char utilities -/

/-- ASCII uppercase letter, the class `[A-Z]` of the Python regexes. -/
def isUpperAZ (c : Char) : Bool := 65 ≤ c.toNat && c.toNat ≤ 90

/-- ASCII lowercase letter. -/
def isLowerAZ (c : Char) : Bool := 97 ≤ c.toNat && c.toNat ≤ 122

/-- ASCII letter, the class `[A-Z]` under `re.IGNORECASE`. -/
def isAsciiLetter (c : Char) : Bool := isUpperAZ c || isLowerAZ c

/-- ASCII digit, the class `\d` of the Python regexes (ASCII inputs). -/
def isDigitC (c : Char) : Bool := 48 ≤ c.toNat && c.toNat ≤ 57

/-- ASCII alphanumeric, the class `[a-zA-Z0-9]`. -/
def isAlnumC (c : Char) : Bool := isAsciiLetter c || isDigitC c

/-- Uppercase a string, modelling Python `str.upper()` on ASCII data. -/
def upperL (cs : List Char) : List Char := cs.map Char.toUpper

/-- Lowercase a string, modelling Python `str.lower()` on ASCII data. -/
def lowerL (cs : List Char) : List Char := cs.map Char.toLower

/-- Boolean string-prefix test (Python `str.startswith`). -/
def hasPrefixB : List Char → List Char → Bool
  | [], _ => true
  | _ :: _, [] => false
  | a :: as, b :: bs => a == b && hasPrefixB as bs

/-- Boolean string-suffix test (Python `str.endswith`). -/
def endsWithB (suffix t : List Char) : Bool := hasPrefixB suffix.reverse t.reverse

/-- Boolean contiguous-substring test (Python `needle in haystack`). -/
def hasSubstr (needle : List Char) : List Char → Bool
  | [] => hasPrefixB needle []
  | c :: t => hasPrefixB needle (c :: t) || hasSubstr needle t

/-- Python `str.strip()`: drop leading and trailing whitespace. -/
def pyStrip (cs : List Char) : List Char :=
  ((cs.dropWhile Char.isWhitespace).reverse.dropWhile Char.isWhitespace).reverse

/-! ### utils.py: sanitize_filename (lines 9-29) -/

/-- Characters removed by `re.sub(r'[\\/*?:"<>|]', '', s)` in `sanitize_filename`. -/
def forbiddenFilenameChars : List Char := ['\\', '/', '*', '?', ':', '"', '<', '>', '|']

/-- Model of `utils.sanitize_filename`: strip, replace spaces with underscores,
remove forbidden characters, truncate to 50 characters. -/
def sanitize_filename (cs : List Char) : List Char :=
  let s1 := pyStrip cs
  let s2 := s1.map (fun c => if c = ' ' then '_' else c)
  let s3 := s2.filter (fun c => ¬ c ∈ forbiddenFilenameChars)
  if s3.length > 50 then s3.take 50 else s3

/-! ### scraper.py: download_thumbnail (lines 620-660)

The network fetch and the chunked file write are abstracted into one outcome
value: either the whole body was written (with its total size, and the
Content-Type header, which the code only uses for a log warning), or some
exception occurred mid-way leaving an optional partial file. -/

/-- Outcome of the streaming fetch inside `download_thumbnail`. -/
inductive ThumbFetch where
  | ok (contentType : List Char) (size : Nat)
  | raised (partialSize : Option Nat)
deriving DecidableEq

/-- Model of `scraper.download_thumbnail`: returns the boolean result and the
file present at the target path afterwards (`none` = no file).  A zero-size
download is removed and reported as failure; any exception removes the partial
file (if present) and reports failure.  The Content-Type validation only logs
a warning and never changes control flow. -/
def download_thumbnail : ThumbFetch → Bool × Option Nat
  | .ok _ size => if size = 0 then (false, none) else (true, some size)
  | .raised _ => (false, none)

/-! ### scraper.py: the per-video section of main (lines 1831-2018)

Each video is abstracted into the four booleans the loop branches on; the
JSON sidecar write is modelled as reliable (an IO failure there is caught and
logged, outside this model). -/

/-- Per-video inputs of one iteration of the crawl loop in `main`. -/
structure VideoRun where
  hasThumbUrl : Bool
  hasCode : Bool
  thumbOk : Bool
  videoOk : Bool
deriving DecidableEq

/-- One persisted JSON metadata sidecar, with the success flags it records. -/
structure SavedMeta where
  video : VideoRun
  download_success : Bool
  thumbnail_success : Bool
deriving DecidableEq

/-- Model of the `for trailer_url in trailer_links` loop of `scraper.main`:
skip a video with no thumbnail URL or no video code; otherwise download both
assets, persist the metadata JSON regardless of outcome, and break the loop
only after a fully successful video (both assets downloaded). -/
def main_download_loop : List VideoRun → List SavedMeta
  | [] => []
  | v :: rest =>
    if v.hasThumbUrl = false then main_download_loop rest
    else if v.hasCode = false then main_download_loop rest
    else
      let m : SavedMeta := ⟨v, v.videoOk, v.thumbOk⟩
      if v.videoOk && v.thumbOk then [m] else m :: main_download_loop rest

/-! ### scraper.py: retry_with_backoff (lines 116-132) -/

/-- `MAX_RETRIES` constant (scraper.py line 33). -/
def MAX_RETRIES : Nat := 5

/-- `RETRY_BACKOFF_FACTOR` constant (scraper.py line 34). -/
def RETRY_BACKOFF_FACTOR : Nat := 2

/-- Recursive core of the retry decorator.  `f k` is the outcome of the k-th
invocation of the wrapped function.  Returns the final outcome, the number of
invocations made, and the list of sleep durations performed between attempts.
`remaining` counts the attempts left after the current one; with `remaining = 0`
the current attempt is the last and its outcome propagates unchanged. -/
def retryRun {E A : Type} (f : Nat → Except E A) : Nat → Nat → Nat → Except E A × Nat × List Nat
  | 0, attempt, _ => (f attempt, 1, [])
  | r + 1, attempt, delay =>
    match f attempt with
    | .ok a => (.ok a, 1, [])
    | .error _ =>
      let x := retryRun f r (attempt + 1) (delay * RETRY_BACKOFF_FACTOR)
      (x.1, x.2.1 + 1, delay :: x.2.2)

/-- Model of `scraper.retry_with_backoff`: up to `MAX_RETRIES` attempts,
starting with a delay of 1 that is multiplied by `RETRY_BACKOFF_FACTOR` after
every failed attempt; the last failure is re-raised. -/
def retry_with_backoff {E A : Type} (f : Nat → Except E A) : Except E A × Nat × List Nat :=
  retryRun f (MAX_RETRIES - 1) 1 1

/-! ### scraper.py: is_valid_video_url (lines 1058-1102)

The HEAD content-type probe is abstracted into an oracle value: either the
response Content-Type header, or a failure of the request. -/

/-- Image extensions rejected by `is_valid_video_url`. -/
def imageExts : List (List Char) :=
  [".jpg".toList, ".jpeg".toList, ".png".toList, ".gif".toList, ".webp".toList,
   ".bmp".toList, ".tiff".toList, ".svg".toList]

/-- Video extensions accepted by `is_valid_video_url`. -/
def videoExts : List (List Char) :=
  [".mp4".toList, ".webm".toList, ".mkv".toList, ".avi".toList, ".mov".toList,
   ".wmv".toList, ".flv".toList, ".m3u8".toList, ".mpd".toList, ".ts".toList]

/-- URL substring patterns accepted by `is_valid_video_url`. -/
def videoPats : List (List Char) :=
  ["/video/".toList, "/videos/".toList, "/player/".toList, "/embed/".toList,
   "/stream/".toList, "/watch/".toList, "movie".toList, "trailer".toList]

/-- Does the (lowercased) string end with any of the given suffixes, modelling
`str.endswith(tuple)`. -/
def endsWithAnyB (t : List Char) (sufs : List (List Char)) : Bool :=
  sufs.any (fun s => endsWithB s t)

/-- Outcome of the `requests.head` probe in `is_valid_video_url`. -/
inductive HeadProbe where
  | ok (contentType : List Char)
  | failed
deriving DecidableEq

/-- Model of `scraper.is_valid_video_url`: reject empty URLs and image
extensions; accept video extensions and video path patterns; otherwise consult
the HEAD content-type probe, accepting video or octet-stream types, rejecting
image types, and rejecting anything undetermined (including probe failure). -/
def is_valid_video_url (url : List Char) (probe : HeadProbe) : Bool :=
  if url.isEmpty then false
  else if endsWithAnyB (lowerL url) imageExts then false
  else if endsWithAnyB (lowerL url) videoExts then true
  else if videoPats.any (fun p => hasSubstr p (lowerL url)) then true
  else
    match probe with
    | .ok ct =>
      let ctl := lowerL ct
      if hasSubstr "video/".toList ctl || hasSubstr "application/octet-stream".toList ctl then
        true
      else if hasSubstr "image/".toList ctl then false
      else false
    | .failed => false

/-- The probe reported a video: the Content-Type contains a video or
octet-stream type (claim C6's reading of the lightweight probe). -/
def probeSaysVideo : HeadProbe → Bool
  | .ok ct =>
    hasSubstr "video/".toList (lowerL ct) || hasSubstr "application/octet-stream".toList (lowerL ct)
  | .failed => false

/-! ### Theorems -/

/-- Helper: members of a take are members of the list. -/
theorem mem_of_mem_take {α : Type} {x : α} {n : Nat} {l : List α} (h : x ∈ l.take n) : x ∈ l :=
  List.mem_of_mem_take h

/-- C10: sanitize_filename returns a string of length at most 50, containing no
space character and none of the forbidden filename characters. -/
theorem sanitize_filename_safe (cs : List Char) :
    (sanitize_filename cs).length ≤ 50 ∧
      ∀ c ∈ sanitize_filename cs, c ≠ ' ' ∧ ¬ c ∈ forbiddenFilenameChars := by
  have hmem : ∀ c ∈ ((pyStrip cs).map (fun c => if c = ' ' then '_' else c)).filter
      (fun c => ¬ c ∈ forbiddenFilenameChars), c ≠ ' ' ∧ ¬ c ∈ forbiddenFilenameChars := by
    intro c hc
    rw [List.mem_filter] at hc
    obtain ⟨hc2, hforb⟩ := hc
    constructor
    · rw [List.mem_map] at hc2
      obtain ⟨a, _, ha⟩ := hc2
      by_cases ha' : a = ' '
      · simp [ha'] at ha
        simp [← ha]
      · simp [ha'] at ha
        rw [← ha]; exact ha'
    · simpa using hforb
  constructor
  · dsimp only [sanitize_filename]
    split
    · exact List.length_take_le 50 _
    · next h => omega
  · intro c hc
    dsimp only [sanitize_filename] at hc
    split at hc
    · exact hmem c (mem_of_mem_take hc)
    · exact hmem c hc

/-- Witness for C10 at a concrete input. -/
theorem sanitize_filename_safe_witness :
    (sanitize_filename ("a b/c?d".toList)).length ≤ 50 ∧
      ∀ c ∈ sanitize_filename ("a b/c?d".toList), c ≠ ' ' ∧ ¬ c ∈ forbiddenFilenameChars :=
  sanitize_filename_safe ("a b/c?d".toList)

/-- C8: download_thumbnail returns true exactly when a non-empty file remains at
the target path, and on failure (zero-size download or exception) no artifact
remains. -/
theorem download_thumbnail_cleanup (r : ThumbFetch) :
    ((download_thumbnail r).1 = true ↔ ∃ n, n ≠ 0 ∧ (download_thumbnail r).2 = some n) ∧
      ((download_thumbnail r).1 = false → (download_thumbnail r).2 = none) := by
  cases r with
  | ok ct size =>
    by_cases h : size = 0
    · simp [download_thumbnail, h]
    · simp only [download_thumbnail, if_neg h]
      refine ⟨⟨fun _ => ⟨size, h, rfl⟩, fun _ => trivial⟩, ?_⟩
      intro hfalse
      exact absurd hfalse (by simp)
  | raised p => simp [download_thumbnail]

/-- Witness for C8 at concrete fetch outcomes. -/
theorem download_thumbnail_cleanup_witness :
    ((download_thumbnail (.ok "image/jpeg".toList 0)).1 = false →
      (download_thumbnail (.ok "image/jpeg".toList 0)).2 = none) ∧
      ((download_thumbnail (.ok "image/jpeg".toList 7)).1 = true ↔
        ∃ n, n ≠ 0 ∧ (download_thumbnail (.ok "image/jpeg".toList 7)).2 = some n) :=
  ⟨(download_thumbnail_cleanup (.ok "image/jpeg".toList 0)).2,
   (download_thumbnail_cleanup (.ok "image/jpeg".toList 7)).1⟩

/-- C9: every video reaching the download stage (thumbnail URL present and video
code resolved) gets its metadata JSON persisted with the actual download
outcomes, whether the video download succeeded or not; and a failed video never
aborts the loop, which continues with the next video. -/
theorem main_download_loop_persists (v : VideoRun) (rest : List VideoRun)
    (h1 : v.hasThumbUrl = true) (h2 : v.hasCode = true) :
    (⟨v, v.videoOk, v.thumbOk⟩ : SavedMeta) ∈ main_download_loop (v :: rest) ∧
      (v.videoOk = false →
        main_download_loop (v :: rest) = ⟨v, false, v.thumbOk⟩ :: main_download_loop rest) := by
  constructor
  · simp only [main_download_loop, h1, h2]
    by_cases h : (v.videoOk && v.thumbOk) = true
    · simp [h]
    · simp only [Bool.not_eq_true] at h
      simp [h]
  · intro hfail
    simp [main_download_loop, h1, h2, hfail]

/-- Witness for C9: a failing video still gets a metadata record and the loop
continues. -/
theorem main_download_loop_persists_witness :
    (⟨⟨true, true, true, false⟩, false, true⟩ : SavedMeta) ∈
        main_download_loop [⟨true, true, true, false⟩, ⟨true, true, true, true⟩] ∧
      ((⟨true, true, true, false⟩ : VideoRun).videoOk = false →
        main_download_loop [⟨true, true, true, false⟩, ⟨true, true, true, true⟩] =
          ⟨⟨true, true, true, false⟩, false, true⟩ ::
            main_download_loop [⟨true, true, true, true⟩]) :=
  main_download_loop_persists ⟨true, true, true, false⟩ [⟨true, true, true, true⟩] rfl rfl

/-- C3: the retry wrapper invokes the wrapped function exactly `MAX_RETRIES`
times when every attempt fails, sleeping 1, 2, 4, 8 time units between
attempts, and the outcome of the final attempt propagates unchanged; when the
first success happens on attempt `k ≤ MAX_RETRIES`, the function is invoked
exactly `k` times, its result is returned, and the `k - 1` sleeps double from
1 onwards. -/
theorem retry_with_backoff_contract {E A : Type} (f : Nat → Except E A) :
    ((∀ k, 1 ≤ k → k ≤ MAX_RETRIES → ∃ e, f k = Except.error e) →
      retry_with_backoff f = (f MAX_RETRIES, MAX_RETRIES, [1, 2, 4, 8])) ∧
      (∀ k a, 1 ≤ k → k ≤ MAX_RETRIES → f k = Except.ok a →
        (∀ j, 1 ≤ j → j < k → ∃ e, f j = Except.error e) →
        retry_with_backoff f =
          (Except.ok a, k, (List.range (k - 1)).map (fun i => 2 ^ i))) := by
  constructor
  · intro hall
    obtain ⟨e1, h1⟩ := hall 1 (by omega) (by simp [MAX_RETRIES])
    obtain ⟨e2, h2⟩ := hall 2 (by omega) (by simp [MAX_RETRIES])
    obtain ⟨e3, h3⟩ := hall 3 (by omega) (by simp [MAX_RETRIES])
    obtain ⟨e4, h4⟩ := hall 4 (by omega) (by simp [MAX_RETRIES])
    simp [retry_with_backoff, MAX_RETRIES, RETRY_BACKOFF_FACTOR, retryRun, h1, h2, h3, h4]
  · intro k a hk1 hk5 hok hbefore
    have hk5' : k ≤ 5 := by simpa [MAX_RETRIES] using hk5
    interval_cases k
    · simp [retry_with_backoff, MAX_RETRIES, RETRY_BACKOFF_FACTOR, retryRun, hok]
    · obtain ⟨e1, h1⟩ := hbefore 1 (by omega) (by omega)
      simp [retry_with_backoff, MAX_RETRIES, RETRY_BACKOFF_FACTOR, retryRun, h1, hok,
        List.range_succ]
    · obtain ⟨e1, h1⟩ := hbefore 1 (by omega) (by omega)
      obtain ⟨e2, h2⟩ := hbefore 2 (by omega) (by omega)
      simp [retry_with_backoff, MAX_RETRIES, RETRY_BACKOFF_FACTOR, retryRun, h1, h2, hok,
        List.range_succ]
    · obtain ⟨e1, h1⟩ := hbefore 1 (by omega) (by omega)
      obtain ⟨e2, h2⟩ := hbefore 2 (by omega) (by omega)
      obtain ⟨e3, h3⟩ := hbefore 3 (by omega) (by omega)
      simp [retry_with_backoff, MAX_RETRIES, RETRY_BACKOFF_FACTOR, retryRun, h1, h2, h3, hok,
        List.range_succ]
    · obtain ⟨e1, h1⟩ := hbefore 1 (by omega) (by omega)
      obtain ⟨e2, h2⟩ := hbefore 2 (by omega) (by omega)
      obtain ⟨e3, h3⟩ := hbefore 3 (by omega) (by omega)
      obtain ⟨e4, h4⟩ := hbefore 4 (by omega) (by omega)
      simp [retry_with_backoff, MAX_RETRIES, RETRY_BACKOFF_FACTOR, retryRun, h1, h2, h3, h4, hok,
        List.range_succ]

/-- Witness for C3: a function succeeding on its third attempt is invoked three
times with sleeps 1 and 2. -/
theorem retry_with_backoff_contract_witness :
    retry_with_backoff (fun k => if k < 3 then Except.error k else Except.ok k) =
      (Except.ok 3, 3, (List.range 2).map (fun i => 2 ^ i)) :=
  (retry_with_backoff_contract (fun k => if k < 3 then Except.error k else Except.ok k)).2
    3 3 (by omega) (by simp [MAX_RETRIES]) (by simp)
    (fun j _ hj => ⟨j, by simp [hj]⟩)

/-- C6: is_valid_video_url accepts a URL exactly when it is non-empty, does not
end with an image extension, and either ends with a video extension, contains a
video path pattern, or the HEAD probe reports a video or octet-stream
Content-Type; everything else (image content types, undetermined types, failed
probes) is rejected. -/
theorem is_valid_video_url_iff (url : List Char) (probe : HeadProbe) :
    is_valid_video_url url probe =
      (!url.isEmpty && !endsWithAnyB (lowerL url) imageExts &&
        (endsWithAnyB (lowerL url) videoExts ||
          videoPats.any (fun p => hasSubstr p (lowerL url)) ||
          probeSaysVideo probe)) := by
  unfold is_valid_video_url
  by_cases hempty : url.isEmpty
  · simp [hempty]
  · simp only [hempty, if_false, Bool.not_false, Bool.true_and]
    by_cases himg : endsWithAnyB (lowerL url) imageExts
    · simp [himg]
    · simp only [himg, if_false, Bool.not_false, Bool.true_and]
      by_cases hext : endsWithAnyB (lowerL url) videoExts
      · simp [hext]
      · simp only [hext, if_false, Bool.false_or]
        by_cases hpat : videoPats.any (fun p => hasSubstr p (lowerL url))
        · simp [hpat]
        · simp only [hpat, if_false, Bool.false_or]
          cases probe with
          | failed => simp [probeSaysVideo]
          | ok ct =>
            by_cases hvid : (hasSubstr "video/".toList (lowerL ct) ||
                hasSubstr "application/octet-stream".toList (lowerL ct)) = true
            · simp [probeSaysVideo, hvid]
            · simp only [Bool.not_eq_true] at hvid
              by_cases himg2 : hasSubstr "image/".toList (lowerL ct)
              · simp [probeSaysVideo, hvid, himg2]
              · simp [probeSaysVideo, hvid, himg2]

/-! ### Screenshot list construction (spec-modelled)

app.py imports `get_video_details` from the scraper module and hands its
`screenshots` field to `downloader.download_assets` (downloader.py lines
219-238), but the function itself is not present under src/.  The construction
below is modelled from the spec: candidate URLs are made absolute (relative
URLs are joined to the site domain, the convention visible in
downloader.download_file lines 43-46), icon/logo pattern matches are excluded,
duplicates are dropped keeping the first occurrence, and the list is capped at
10 entries. -/

/-- Substring patterns identifying icon/logo images, from the spec wording
`excluding icon/logo-pattern matches`. -/
def iconLogoPats : List (List Char) := ["icon".toList, "logo".toList]

/-- Modelled from the spec: join a relative URL to the site domain, the
absolute-URL convention of downloader.download_file. -/
def absolutize (u : List Char) : List Char :=
  if hasPrefixB "/".toList u then "https://javtrailers.com".toList ++ u else u

/-- Order-preserving deduplication keeping the first occurrence of each URL;
`seen` accumulates the URLs already emitted. -/
def dedupAux (seen : List (List Char)) : List (List Char) → List (List Char)
  | [] => []
  | x :: xs => if x ∈ seen then dedupAux seen xs else x :: dedupAux (x :: seen) xs

/-- Modelled from the spec: the `screenshots` field produced by the metadata
resolver (`get_video_details`, absent from src/): ordered absolute URLs,
icon/logo matches excluded, deduplicated, capped at 10. -/
def build_screenshots (cands : List (List Char)) : List (List Char) :=
  (dedupAux []
      ((cands.map absolutize).filter
        (fun u => !(iconLogoPats.any (fun p => hasSubstr p (lowerL u)))))).take 10

/-- A list is always a prefix-extension of itself. -/
theorem hasPrefixB_self_append (p r : List Char) : hasPrefixB p (p ++ r) = true := by
  induction p with
  | nil => simp [hasPrefixB]
  | cons a as ih => simp [hasPrefixB, ih]

/-- Prefixes survive appending on the right. -/
theorem hasPrefixB_append_right (p s r : List Char) (h : hasPrefixB p s = true) :
    hasPrefixB p (s ++ r) = true := by
  induction p generalizing s with
  | nil => simp [hasPrefixB]
  | cons a as ih =>
    cases s with
    | nil => simp [hasPrefixB] at h
    | cons b bs =>
      simp only [hasPrefixB, Bool.and_eq_true] at h ⊢
      exact ⟨h.1, ih bs h.2⟩

/-- The deduplication pass yields a subsequence of its input. -/
theorem dedupAux_sublist (l : List (List Char)) :
    ∀ seen, List.Sublist (dedupAux seen l) l := by
  induction l with
  | nil => intro seen; simp [dedupAux]
  | cons x xs ih =>
    intro seen
    by_cases hx : x ∈ seen
    · simp only [dedupAux, if_pos hx]
      exact (ih seen).cons x
    · simp only [dedupAux, if_neg hx]
      exact (ih (x :: seen)).cons₂ x

/-- The deduplication pass emits no duplicates and nothing already seen. -/
theorem dedupAux_nodup (l : List (List Char)) :
    ∀ seen, (dedupAux seen l).Nodup ∧ ∀ x ∈ dedupAux seen l, ¬ x ∈ seen := by
  induction l with
  | nil => intro seen; simp [dedupAux]
  | cons x xs ih =>
    intro seen
    by_cases hx : x ∈ seen
    · simp only [dedupAux, if_pos hx]
      exact ih seen
    · simp only [dedupAux, if_neg hx]
      obtain ⟨hnd, hout⟩ := ih (x :: seen)
      refine ⟨List.nodup_cons.mpr ⟨fun hmem => ?_, hnd⟩, ?_⟩
      · exact hout x hmem (by simp)
      · intro y hy
        rcases List.mem_cons.mp hy with hy | hy
        · exact hy ▸ hx
        · intro hsy
          exact hout y hy (List.mem_cons_of_mem x hsy)

/-- C7: the screenshots field built by the pipeline holds at most 10 entries,
no duplicates, no icon/logo-pattern matches, keeps the order of the
(absolutized) candidates, and, whenever every candidate is an http URL or a
site-relative path, every emitted URL is absolute. -/
theorem build_screenshots_invariants (cands : List (List Char)) :
    (build_screenshots cands).length ≤ 10 ∧
      (build_screenshots cands).Nodup ∧
      (∀ u ∈ build_screenshots cands,
        iconLogoPats.any (fun p => hasSubstr p (lowerL u)) = false) ∧
      List.Sublist (build_screenshots cands) ((cands.map absolutize).filter
        (fun u => !(iconLogoPats.any (fun p => hasSubstr p (lowerL u))))) ∧
      ((∀ c ∈ cands, hasPrefixB "http".toList c = true ∨ hasPrefixB "/".toList c = true) →
        ∀ u ∈ build_screenshots cands, hasPrefixB "http".toList u = true) := by
  have hsub : List.Sublist (build_screenshots cands) ((cands.map absolutize).filter
      (fun u => !(iconLogoPats.any (fun p => hasSubstr p (lowerL u)))))  :=
    (List.take_sublist 10 _).trans (dedupAux_sublist _ [])
  refine ⟨?_, ?_, ?_, hsub, ?_⟩
  · exact List.length_take_le 10 _
  · exact (dedupAux_nodup _ []).1.sublist (List.take_sublist 10 _)
  · intro u hu
    have := hsub.subset hu
    rw [List.mem_filter] at this
    simpa using this.2
  · intro habs u hu
    have hmem := hsub.subset hu
    rw [List.mem_filter] at hmem
    obtain ⟨c, hc, hceq⟩ := List.mem_map.mp hmem.1
    rcases habs c hc with hhttp | hrel
    · unfold absolutize at hceq
      by_cases hslash : hasPrefixB "/".toList c = true
      · rw [if_pos hslash] at hceq
        rw [← hceq]
        have hdom : "https://javtrailers.com".toList =
            "http".toList ++ "s://javtrailers.com".toList := by decide
        rw [hdom, List.append_assoc]
        exact hasPrefixB_self_append _ _
      · rw [if_neg hslash] at hceq
        rw [← hceq]; exact hhttp
    · unfold absolutize at hceq
      rw [if_pos hrel] at hceq
      rw [← hceq]
      have hdom : "https://javtrailers.com".toList =
          "http".toList ++ "s://javtrailers.com".toList := by decide
      rw [hdom, List.append_assoc]
      exact hasPrefixB_self_append _ _

/-- Witness for C7 at a concrete candidate list with a duplicate, a logo URL
and a relative URL. -/
theorem build_screenshots_invariants_witness :
    (∀ c ∈ ["https://a.com/1.jpg".toList, "/shots/2.jpg".toList,
        "https://a.com/logo.png".toList, "https://a.com/1.jpg".toList],
      hasPrefixB "http".toList c = true ∨ hasPrefixB "/".toList c = true) ∧
      ∀ u ∈ build_screenshots ["https://a.com/1.jpg".toList, "/shots/2.jpg".toList,
          "https://a.com/logo.png".toList, "https://a.com/1.jpg".toList],
        hasPrefixB "http".toList u = true :=
  ⟨by decide,
   (build_screenshots_invariants _).2.2.2.2 (by decide)⟩

/-! ### scraper.py: cleanup_incomplete_downloads (lines 2094-2153)

The directory tree under the downloads base directory is modelled explicitly:
the base holds entries that are either plain files (skipped by the scan) or
actress directories; an actress directory holds plain files (skipped) or
video-code leaf directories; and a leaf directory holds plain files or
subdirectories (the pipeline itself creates a screenshots/ subdirectory under
each leaf, downloader.py lines 220-221).  The scan loop applies its
name-suffix and os.path.getsize tests to every entry of the leaf, files and
subdirectories alike (for a subdirectory, getsize reports the directory inode
size).  The deletion loop calls os.remove on every entry in listing order:
os.remove succeeds on plain files but raises on a subdirectory, and the
except at line 2138 then leaves the leaf in place with only the entries
before the subdirectory removed. -/

/-- A file on disk: name and size in bytes. -/
structure FSFile where
  name : List Char
  size : Nat
deriving DecidableEq

/-- An entry of a video-code leaf directory: a plain file or a subdirectory;
`size` is what os.path.getsize reports (for a subdirectory, the directory
inode size). -/
inductive LeafEntry where
  | file (name : List Char) (size : Nat)
  | subdir (name : List Char) (size : Nat)
deriving DecidableEq

/-- Name of a leaf entry, as listed by os.listdir. -/
def LeafEntry.entryName : LeafEntry → List Char
  | .file n _ => n
  | .subdir n _ => n

/-- Size of a leaf entry, as reported by os.path.getsize. -/
def LeafEntry.entrySize : LeafEntry → Nat
  | .file _ s => s
  | .subdir _ s => s

/-- Is the entry a plain file?  os.remove succeeds exactly on these and
raises IsADirectoryError on subdirectories. -/
def LeafEntry.isFileEntry : LeafEntry → Bool
  | .file _ _ => true
  | .subdir _ _ => false

/-- An entry of an actress directory. -/
inductive CastEntry where
  | plain (f : FSFile)
  | vdir (name : List Char) (entries : List LeafEntry)
deriving DecidableEq

/-- An entry of the downloads base directory. -/
inductive BaseEntry where
  | plain (f : FSFile)
  | adir (name : List Char) (entries : List CastEntry)
deriving DecidableEq

/-- The non-empty-.mp4 test of the scan loop. -/
def isVideoEntry (e : LeafEntry) : Bool :=
  endsWithB ".mp4".toList e.entryName && decide (0 < e.entrySize)

/-- The non-empty-.jpg test of the scan loop. -/
def isThumbEntry (e : LeafEntry) : Bool :=
  endsWithB ".jpg".toList e.entryName && decide (0 < e.entrySize)

/-- The non-empty-.json test of the scan loop. -/
def isMetaEntry (e : LeafEntry) : Bool :=
  endsWithB ".json".toList e.entryName && decide (0 < e.entrySize)

/-- One step of the file scan of `cleanup_incomplete_downloads`: the
if/elif/elif chain updating `(has_video, has_thumbnail, has_metadata)`. -/
def scanStep (acc : Bool × Bool × Bool) (e : LeafEntry) : Bool × Bool × Bool :=
  if isVideoEntry e then (true, acc.2.1, acc.2.2)
  else if isThumbEntry e then (acc.1, true, acc.2.2)
  else if isMetaEntry e then (acc.1, acc.2.1, true)
  else acc

/-- The file scan of one video-code directory. -/
def scanFlags (entries : List LeafEntry) : Bool × Bool × Bool :=
  entries.foldl scanStep (false, false, false)

/-- A video-code directory is complete when it has a non-empty video,
thumbnail and metadata file. -/
def isCompleteDir (entries : List LeafEntry) : Bool :=
  (scanFlags entries).1 && (scanFlags entries).2.1 && (scanFlags entries).2.2

/-- The deletion loop over one incomplete leaf: os.remove removes plain files
in listing order and raises at the first subdirectory, aborting the loop (the
exception is caught by the handler at scraper.py line 2138).  Returns the
surviving entries and whether the loop, and hence the final rmdir, ran to
completion. -/
def removeEntries : List LeafEntry → List LeafEntry × Bool
  | [] => ([], true)
  | LeafEntry.file _ _ :: rest => removeEntries rest
  | LeafEntry.subdir n s :: rest => (LeafEntry.subdir n s :: rest, false)

/-- The inner loop of `cleanup_incomplete_downloads` over one actress
directory: complete video-code directories and plain files are kept
untouched; an incomplete video-code directory is removed when its deletion
loop completes, and otherwise survives with the entries the aborted loop left
behind. -/
def cleanupCast (entries : List CastEntry) : List CastEntry :=
  entries.filterMap fun e =>
    match e with
    | .plain f => some (.plain f)
    | .vdir name les =>
      if isCompleteDir les then some (.vdir name les)
      else
        let r := removeEntries les
        if r.2 then none else some (.vdir name r.1)

/-- Model of `scraper.cleanup_incomplete_downloads`: prune incomplete
video-code directories in every actress directory, then remove any actress
directory left with no entries at all. -/
def cleanup_incomplete_downloads (base : List BaseEntry) : List BaseEntry :=
  base.filterMap fun e =>
    match e with
    | .plain f => some (.plain f)
    | .adir name entries =>
      let kept := cleanupCast entries
      if kept.isEmpty then none else some (.adir name kept)

/-- Two prefixes of the same string compare as prefixes of each other. -/
theorem hasPrefixB_of_common (p q r : List Char) (hp : hasPrefixB p r = true)
    (hq : hasPrefixB q r = true) (hle : p.length ≤ q.length) :
    hasPrefixB p q = true := by
  induction p generalizing q r with
  | nil => simp [hasPrefixB]
  | cons a as ih =>
    cases q with
    | nil => simp at hle
    | cons b bs =>
      cases r with
      | nil => simp [hasPrefixB] at hp
      | cons c cs =>
        simp only [hasPrefixB, Bool.and_eq_true, beq_iff_eq] at hp hq ⊢
        refine ⟨hp.1.trans hq.1.symm, ?_⟩
        exact ih bs cs hp.2 hq.2 (by simpa using hle)

/-- An entry name cannot end in two of the three required extensions at
once. -/
theorem file_kinds_disjoint (e : LeafEntry) :
    (isVideoEntry e = true → isThumbEntry e = false ∧ isMetaEntry e = false) ∧
      (isThumbEntry e = true → isMetaEntry e = false) := by
  constructor
  · intro hv
    rw [isVideoEntry, Bool.and_eq_true] at hv
    constructor
    · rw [isThumbEntry]
      by_cases ht : endsWithB ".jpg".toList e.entryName = true
      · exfalso
        have := hasPrefixB_of_common _ _ _ (by simpa [endsWithB] using hv.1)
          (by simpa [endsWithB] using ht) (by decide)
        revert this
        decide
      · simp [Bool.not_eq_true] at ht
        simp [ht]
    · rw [isMetaEntry]
      by_cases ht : endsWithB ".json".toList e.entryName = true
      · exfalso
        have := hasPrefixB_of_common _ _ _ (by simpa [endsWithB] using hv.1)
          (by simpa [endsWithB] using ht) (by decide)
        revert this
        decide
      · simp [Bool.not_eq_true] at ht
        simp [ht]
  · intro hv
    rw [isThumbEntry, Bool.and_eq_true] at hv
    rw [isMetaEntry]
    by_cases ht : endsWithB ".json".toList e.entryName = true
    · exfalso
      have := hasPrefixB_of_common _ _ _ (by simpa [endsWithB] using hv.1)
        (by simpa [endsWithB] using ht) (by decide)
      revert this
      decide
    · simp [Bool.not_eq_true] at ht
      simp [ht]

/-- The first scan flag accumulates the presence of a non-empty video file. -/
theorem scanFold_video (entries : List LeafEntry) :
    ∀ acc : Bool × Bool × Bool,
      (entries.foldl scanStep acc).1 = (acc.1 || entries.any isVideoEntry) := by
  induction entries with
  | nil => intro acc; simp
  | cons e fs ih =>
    intro acc
    rw [List.foldl_cons, ih, List.any_cons]
    unfold scanStep
    by_cases h1 : isVideoEntry e
    · simp [h1]
    · by_cases h2 : isThumbEntry e
      · simp [h1, h2]
      · by_cases h3 : isMetaEntry e
        · simp [h1, h2, h3]
        · simp [h1, h2, h3]

/-- The second scan flag accumulates the presence of a non-empty thumbnail. -/
theorem scanFold_thumb (entries : List LeafEntry) :
    ∀ acc : Bool × Bool × Bool,
      (entries.foldl scanStep acc).2.1 = (acc.2.1 || entries.any isThumbEntry) := by
  induction entries with
  | nil => intro acc; simp
  | cons e fs ih =>
    intro acc
    rw [List.foldl_cons, ih, List.any_cons]
    unfold scanStep
    by_cases h1 : isVideoEntry e
    · have := ((file_kinds_disjoint e).1 h1).1
      simp [h1, this]
    · by_cases h2 : isThumbEntry e
      · simp [h1, h2]
      · by_cases h3 : isMetaEntry e
        · simp [h1, h2, h3]
        · simp [h1, h2, h3]

/-- The third scan flag accumulates the presence of a non-empty metadata
file. -/
theorem scanFold_meta (entries : List LeafEntry) :
    ∀ acc : Bool × Bool × Bool,
      (entries.foldl scanStep acc).2.2 = (acc.2.2 || entries.any isMetaEntry) := by
  induction entries with
  | nil => intro acc; simp
  | cons e fs ih =>
    intro acc
    rw [List.foldl_cons, ih, List.any_cons]
    unfold scanStep
    by_cases h1 : isVideoEntry e
    · have := ((file_kinds_disjoint e).1 h1).2
      simp [h1, this]
    · by_cases h2 : isThumbEntry e
      · have := (file_kinds_disjoint e).2 h2
        simp [h1, h2, this]
      · by_cases h3 : isMetaEntry e
        · simp [h1, h2, h3]
        · simp [h1, h2, h3]

/-- The deletion loop removes the leading run of plain files and completes
exactly when the leaf holds plain files only. -/
theorem removeEntries_spec (les : List LeafEntry) :
    removeEntries les = (les.dropWhile LeafEntry.isFileEntry,
      les.all LeafEntry.isFileEntry) := by
  induction les with
  | nil => rfl
  | cons e rest ih =>
    cases e with
    | file n s =>
      rw [List.dropWhile_cons, List.all_cons]
      simp only [LeafEntry.isFileEntry, if_true, Bool.true_and]
      rw [removeEntries, ih]
    | subdir n s =>
      rw [List.dropWhile_cons, List.all_cons]
      simp [LeafEntry.isFileEntry, removeEntries]

/-- C4 counterexample: a leaf directory that is missing its thumbnail but
contains the screenshots/ subdirectory the pipeline itself creates is not
deleted: os.remove removes the leading video file, raises at the
subdirectory, and the caught exception leaves the leaf (and hence its actress
directory) in place, partially gutted. -/
theorem cleanup_incomplete_downloads_claim_counterexample :
    cleanup_incomplete_downloads
        [BaseEntry.adir "a1".toList
          [CastEntry.vdir "HRD-039".toList
            [LeafEntry.file "y.mp4".toList 5,
             LeafEntry.subdir "screenshots".toList 4096,
             LeafEntry.file "y.json".toList 2]]] =
      [BaseEntry.adir "a1".toList
        [CastEntry.vdir "HRD-039".toList
          [LeafEntry.subdir "screenshots".toList 4096,
           LeafEntry.file "y.json".toList 2]]] ∧
      isCompleteDir
        [LeafEntry.file "y.mp4".toList 5,
         LeafEntry.subdir "screenshots".toList 4096,
         LeafEntry.file "y.json".toList 2] = false := by
  constructor
  · decide
  · decide

/-- C4 amended: splicing one actress directory into the base, the cleanup
keeps complete leaves and plain files untouched, deletes an incomplete leaf
wholesale exactly when it holds plain files only, leaves an incomplete leaf
containing a subdirectory in place holding the subdirectory and every entry
after it in listing order, removes the actress directory exactly when it is
left with zero entries, and leaves the rest of the base to the same rule;
completeness of a leaf means having a non-empty .mp4, a non-empty .jpg and a
non-empty .json entry. -/
theorem cleanup_incomplete_downloads_amended (pre post : List BaseEntry)
    (aname : List Char) (entries : List CastEntry) :
    cleanup_incomplete_downloads (pre ++ BaseEntry.adir aname entries :: post) =
        cleanup_incomplete_downloads pre ++
          (if (cleanupCast entries).isEmpty then []
            else [BaseEntry.adir aname (cleanupCast entries)]) ++
          cleanup_incomplete_downloads post ∧
      (∀ (epre epost : List CastEntry) (vname : List Char) (les : List LeafEntry),
        cleanupCast (epre ++ CastEntry.vdir vname les :: epost) =
          cleanupCast epre ++
            (if isCompleteDir les then [CastEntry.vdir vname les]
              else if les.all LeafEntry.isFileEntry then []
              else [CastEntry.vdir vname (les.dropWhile LeafEntry.isFileEntry)]) ++
            cleanupCast epost) ∧
      (∀ les, isCompleteDir les = true ↔
        ((∃ e ∈ les, isVideoEntry e = true) ∧ (∃ e ∈ les, isThumbEntry e = true) ∧
          ∃ e ∈ les, isMetaEntry e = true)) := by
  refine ⟨?_, ?_, ?_⟩
  · unfold cleanup_incomplete_downloads
    rw [List.filterMap_append, List.filterMap_cons]
    by_cases h : (cleanupCast entries).isEmpty
    · simp [h]
    · simp [h]
  · intro epre epost vname les
    unfold cleanupCast
    rw [List.filterMap_append, List.filterMap_cons]
    by_cases hc : isCompleteDir les
    · simp [hc]
    · by_cases hall : les.all LeafEntry.isFileEntry
      · simp [hc, removeEntries_spec, hall]
      · simp [hc, removeEntries_spec, hall]
  · intro les
    unfold isCompleteDir scanFlags
    rw [scanFold_video, scanFold_thumb, scanFold_meta]
    simp only [Bool.false_or, Bool.and_eq_true, List.any_eq_true]
    tauto

/-- Witness for C4 amended at a concrete actress directory holding a complete
leaf, an incomplete files-only leaf, and an incomplete leaf with a
screenshots/ subdirectory. -/
theorem cleanup_incomplete_downloads_amended_witness :
    cleanupCast ([] ++ CastEntry.vdir "HRD-039".toList
        [LeafEntry.file "y.mp4".toList 5, LeafEntry.subdir "screenshots".toList 4096,
         LeafEntry.file "y.json".toList 2] ::
          [CastEntry.vdir "HRD-038".toList
            [LeafEntry.file "x.mp4".toList 5, LeafEntry.file "x.jpg".toList 3,
             LeafEntry.file "x.json".toList 2],
           CastEntry.vdir "ABC-001".toList [LeafEntry.file "z.mp4".toList 0]]) =
      cleanupCast [] ++
        (if isCompleteDir [LeafEntry.file "y.mp4".toList 5,
              LeafEntry.subdir "screenshots".toList 4096, LeafEntry.file "y.json".toList 2]
          then [CastEntry.vdir "HRD-039".toList
            [LeafEntry.file "y.mp4".toList 5, LeafEntry.subdir "screenshots".toList 4096,
             LeafEntry.file "y.json".toList 2]]
          else if ([LeafEntry.file "y.mp4".toList 5, LeafEntry.subdir "screenshots".toList 4096,
              LeafEntry.file "y.json".toList 2].all LeafEntry.isFileEntry) then []
          else [CastEntry.vdir "HRD-039".toList
            ([LeafEntry.file "y.mp4".toList 5, LeafEntry.subdir "screenshots".toList 4096,
              LeafEntry.file "y.json".toList 2].dropWhile LeafEntry.isFileEntry)]) ++
        cleanupCast
          [CastEntry.vdir "HRD-038".toList
            [LeafEntry.file "x.mp4".toList 5, LeafEntry.file "x.jpg".toList 3,
             LeafEntry.file "x.json".toList 2],
           CastEntry.vdir "ABC-001".toList [LeafEntry.file "z.mp4".toList 0]] ∧
      (isCompleteDir [LeafEntry.file "x.mp4".toList 5, LeafEntry.file "x.jpg".toList 3,
          LeafEntry.file "x.json".toList 2] = true ↔
        ((∃ e ∈ [LeafEntry.file "x.mp4".toList 5, LeafEntry.file "x.jpg".toList 3,
            LeafEntry.file "x.json".toList 2], isVideoEntry e = true) ∧
          (∃ e ∈ [LeafEntry.file "x.mp4".toList 5, LeafEntry.file "x.jpg".toList 3,
            LeafEntry.file "x.json".toList 2], isThumbEntry e = true) ∧
          ∃ e ∈ [LeafEntry.file "x.mp4".toList 5, LeafEntry.file "x.jpg".toList 3,
            LeafEntry.file "x.json".toList 2], isMetaEntry e = true)) :=
  ⟨(cleanup_incomplete_downloads_amended [] [] [] []).2.1 []
      [CastEntry.vdir "HRD-038".toList
        [LeafEntry.file "x.mp4".toList 5, LeafEntry.file "x.jpg".toList 3,
         LeafEntry.file "x.json".toList 2],
       CastEntry.vdir "ABC-001".toList [LeafEntry.file "z.mp4".toList 0]]
      "HRD-039".toList
      [LeafEntry.file "y.mp4".toList 5, LeafEntry.subdir "screenshots".toList 4096,
       LeafEntry.file "y.json".toList 2],
   (cleanup_incomplete_downloads_amended [] [] [] []).2.2
      [LeafEntry.file "x.mp4".toList 5, LeafEntry.file "x.jpg".toList 3,
       LeafEntry.file "x.json".toList 2]⟩


/-! ### scraper.py: title/description reconciliation in main (lines 1854-1875) -/

/-- The generic boilerplate phrase tested by the reconciliation rule. -/
def genericPhrase : List Char := "Jav streaming Online Japanese Adult Video".toList

/-- Model of the description-vs-title reconciliation in `scraper.main` (lines
1854-1875): when the description is non-empty, is not the generic boilerplate,
and either contains the video code or is longer than the title, it replaces
both `title` and `original_title`; a second pass replaces both again with the
description when the title still contains the boilerplate.  Returns the new
`(title, original_title)` pair. -/
def main_reconcile_title (video_code title original_title description : List Char) :
    List Char × List Char :=
  let step1 :=
    if !(description.isEmpty) && !(hasSubstr genericPhrase description) &&
        (hasSubstr video_code description || decide (title.length < description.length)) then
      (description, description)
    else (title, original_title)
  if hasSubstr genericPhrase step1.1 then
    if !(description.isEmpty) then (description, description) else step1
  else step1

/-- C2 counterexample: at a concrete input where the reconciliation rule fires
(the description is not the boilerplate and contains the video code), the
original_title field is overwritten with the description instead of keeping its
previous value. -/
theorem main_reconcile_title_counterexample :
    (main_reconcile_title "ABC-123".toList "Short".toList "Short".toList
        "ABC-123 Full Descriptive Title".toList).2 =
      "ABC-123 Full Descriptive Title".toList ∧
      ¬ (main_reconcile_title "ABC-123".toList "Short".toList "Short".toList
          "ABC-123 Full Descriptive Title".toList).2 = "Short".toList := by
  constructor
  · decide
  · decide

/-- C2 amended: whenever the reconciliation rule fires (non-empty description
that is not the generic boilerplate and either contains the video code or is
longer than the title), the description replaces the title AND the
original_title; original_title is not retained. -/
theorem main_reconcile_title_amended (video_code title original_title description : List Char)
    (hne : description.isEmpty = false)
    (hgen : hasSubstr genericPhrase description = false)
    (hbetter : hasSubstr video_code description = true ∨
      title.length < description.length) :
    main_reconcile_title video_code title original_title description =
      (description, description) := by
  unfold main_reconcile_title
  have hcond : (!(description.isEmpty) && !(hasSubstr genericPhrase description) &&
      (hasSubstr video_code description ||
        decide (title.length < description.length))) = true := by
    rw [hne, hgen]
    rcases hbetter with h | h
    · simp [h]
    · simp [h]
  rw [hcond]
  simp only [if_true]
  rw [hgen]
  simp

/-- Witness for C2 amended at a concrete firing input. -/
theorem main_reconcile_title_amended_witness :
    main_reconcile_title "XY-001".toList "T".toList "T".toList "XY-001 better".toList =
      ("XY-001 better".toList, "XY-001 better".toList) :=
  main_reconcile_title_amended "XY-001".toList "T".toList "T".toList "XY-001 better".toList
    (by decide) (by decide) (Or.inl (by decide))

/-! ### scraper.py: duplicate-code filename check in main (lines 1901-1943) -/

/-- Python `video_code.split('.')[0]`: the segment before the first dot. -/
def splitDotHead (cs : List Char) : List Char := cs.takeWhile (fun c => c ≠ '.')

/-- Model of `re.match(r'([A-Z]+)[-\s]*(\d+)', normalized_code)`: an anchored
match of one-or-more uppercase letters, zero-or-more hyphen/whitespace
separators, then one-or-more digits, returning the two groups. -/
def reMatchCodeParts (cs : List Char) : Option (List Char × List Char) :=
  let pre := cs.takeWhile isUpperAZ
  if pre.isEmpty then none
  else
    let rest := (cs.drop pre.length).dropWhile (fun c => c = '-' || c.isWhitespace)
    let num := rest.takeWhile isDigitC
    if num.isEmpty then none else some (pre, num)

/-- Python `number.lstrip('0')`. -/
def stripZeros (cs : List Char) : List Char := cs.dropWhile (fun c => c = '0')

/-- Does `rest` start with `num` immediately followed by a whitespace
character, the tail of the duplicate-code regexes. -/
def numThenWs (num rest : List Char) : Bool :=
  hasPrefixB num rest &&
    match rest.drop num.length with
    | [] => false
    | c :: _ => c.isWhitespace

/-- Match of `0*<num>\s` against `rest`: some amount of leading zeros, then
the (zero-stripped) number, then whitespace.  The backtracking of the greedy
`0*` is encoded as a search over every feasible zero count. -/
def zerosNumWs (num rest : List Char) : Bool :=
  (List.range ((rest.takeWhile (fun c => c = '0')).length + 1)).any
    (fun k => numThenWs num (rest.drop k))

/-- Truthiness of `re.search(f'^{prefix}-?0*{number}\s', title)`, the
zero-padding-insensitive duplicate check with optional hyphen. -/
def padMatchHyphen (pre num t : List Char) : Bool :=
  hasPrefixB pre t &&
    (zerosNumWs num (t.drop pre.length) ||
      (match t.drop pre.length with
       | c :: r2 => c == '-' && zerosNumWs num r2
       | [] => false))

/-- Truthiness of `re.search(f'^{prefix}0*{number}\s', title)`, the
no-hyphen variant of the duplicate check. -/
def padMatchNoHyphen (pre num t : List Char) : Bool :=
  hasPrefixB pre t && zerosNumWs num (t.drop pre.length)

/-- Model of the filename-formatting block of `scraper.main` (lines
1901-1943).  The video code is normalized (segment before the first dot,
stripped, uppercased) and split into letter prefix and digit group; the title
is recognized as already containing the code when its uppercase form starts
with the normalized or canonical code, or matches one of the
padding-insensitive regexes; only then is the code not prepended.  When the
anchored group match fails and the startswith checks also fail, the Python
code hits an unbound local variable (NameError) in the first regex check and
the video is skipped by the enclosing handler: that path is `none`. -/
def main_format_filename (video_code original_title : List Char) : Option (List Char) :=
  let normalized := upperL (pyStrip (splitDotHead video_code))
  let title_upper := upperL original_title
  match reMatchCodeParts normalized with
  | some pn =>
    let num := stripZeros pn.2
    let canonical := pn.1 ++ '-' :: num
    let has := hasPrefixB normalized title_upper || hasPrefixB canonical title_upper ||
      padMatchHyphen pn.1 num title_upper || padMatchNoHyphen pn.1 num title_upper
    some (if has then original_title else video_code ++ ' ' :: original_title)
  | none =>
    if hasPrefixB normalized title_upper then some original_title
    else none

/-- C5 counterexample: the title "HRD-00038" begins with the video code
"HRD-38" in zero-padded form, yet the check requires a whitespace character
after the padded number, so the code is prepended and the filename is not the
original title. -/
theorem main_format_filename_counterexample :
    main_format_filename "HRD-38".toList "HRD-00038".toList =
        some ("HRD-38 HRD-00038".toList) ∧
      ¬ main_format_filename "HRD-38".toList "HRD-00038".toList =
        some ("HRD-00038".toList) := by
  constructor
  · decide
  · decide

/-- Characters of the basic-latin range below the lowercase letters are fixed
by `Char.toUpper`. -/
theorem toUpper_eq_self (c : Char) (h : c.toNat ≤ 96) : c.toUpper = c := by
  unfold Char.toUpper
  exact if_neg (by omega)

/-- Uppercasing fixes a string of characters below the lowercase range. -/
theorem upperL_eq_self (cs : List Char) (h : ∀ c ∈ cs, c.toNat ≤ 96) :
    upperL cs = cs := by
  induction cs with
  | nil => rfl
  | cons c t ih =>
    unfold upperL at ih ⊢
    rw [List.map_cons, toUpper_eq_self c (h c (by simp)), ih (fun d hd => h d (by simp [hd]))]

/-- An uppercase letter is not a whitespace character. -/
theorem upper_not_ws (c : Char) (h : isUpperAZ c = true) : c.isWhitespace = false := by
  simp only [isUpperAZ, Bool.and_eq_true, decide_eq_true_eq] at h
  by_contra hw
  rw [Bool.not_eq_false, Char.isWhitespace] at hw
  simp only [Bool.or_eq_true, decide_eq_true_eq] at hw
  rcases hw with ((h1 | h1) | h1) | h1 <;> subst h1 <;> simp_all

/-- A digit is not a whitespace character. -/
theorem digit_not_ws (c : Char) (h : isDigitC c = true) : c.isWhitespace = false := by
  simp only [isDigitC, Bool.and_eq_true, decide_eq_true_eq] at h
  by_contra hw
  rw [Bool.not_eq_false, Char.isWhitespace] at hw
  simp only [Bool.or_eq_true, decide_eq_true_eq] at hw
  rcases hw with ((h1 | h1) | h1) | h1 <;> subst h1 <;> simp_all

/-- A digit is not an uppercase letter. -/
theorem digit_not_upper (c : Char) (h : isDigitC c = true) : isUpperAZ c = false := by
  simp only [isDigitC, Bool.and_eq_true, decide_eq_true_eq] at h
  simp only [isUpperAZ, Bool.and_eq_false_iff, decide_eq_false_iff_not]
  omega

/-- An uppercase letter is below the lowercase range. -/
theorem upper_le_96 (c : Char) (h : isUpperAZ c = true) : c.toNat ≤ 96 := by
  simp only [isUpperAZ, Bool.and_eq_true, decide_eq_true_eq] at h
  omega

/-- A digit is below the lowercase range. -/
theorem digit_le_96 (c : Char) (h : isDigitC c = true) : c.toNat ≤ 96 := by
  simp only [isDigitC, Bool.and_eq_true, decide_eq_true_eq] at h
  omega

/-- takeWhile over an append stops exactly at the first element of the second
part when the first part satisfies the predicate and the second starts with a
failing element. -/
theorem takeWhile_append_stop (p : Char → Bool) (xs ys : List Char)
    (hxs : ∀ c ∈ xs, p c = true) (hys : ∀ c, ys.head? = some c → p c = false) :
    (xs ++ ys).takeWhile p = xs := by
  induction xs with
  | nil =>
    cases ys with
    | nil => rfl
    | cons c t =>
      simp [List.takeWhile_cons, hys c rfl]
  | cons x xt ih =>
    simp only [List.cons_append, List.takeWhile_cons, hxs x (by simp), if_true]
    rw [ih (fun c hc => hxs c (by simp [hc]))]

/-- takeWhile keeps a list all of whose elements satisfy the predicate. -/
theorem takeWhile_all (p : Char → Bool) (xs : List Char) (hxs : ∀ c ∈ xs, p c = true) :
    xs.takeWhile p = xs := by
  have := takeWhile_append_stop p xs [] hxs (by intro c hc; cases hc)
  simpa using this

/-- dropWhile is the identity when the head fails the predicate. -/
theorem dropWhile_head_stop (p : Char → Bool) (l : List Char)
    (h : ∀ c, l.head? = some c → p c = false) : l.dropWhile p = l := by
  cases l with
  | nil => rfl
  | cons c t => simp [List.dropWhile_cons, h c rfl]

/-- Dropping the length of the left part of an append yields the right part. -/
theorem drop_len_append (xs ys : List Char) : (xs ++ ys).drop xs.length = ys :=
  List.drop_left xs ys

/-- A prefix test against a longer pattern implies the test against its left
part. -/
theorem hasPrefixB_append_left (p q t : List Char) (h : hasPrefixB (p ++ q) t = true) :
    hasPrefixB p t = true := by
  induction p generalizing t with
  | nil => simp [hasPrefixB]
  | cons a as ih =>
    cases t with
    | nil => simp [hasPrefixB] at h
    | cons b bs =>
      simp only [List.cons_append, hasPrefixB, Bool.and_eq_true] at h ⊢
      exact ⟨h.1, ih bs h.2⟩

/-- A digit fails the separator class `[-\s]` of the anchored code regex. -/
theorem digit_not_sep (c : Char) (h : isDigitC c = true) :
    (decide (c = '-') || c.isWhitespace) = false := by
  rw [Bool.or_eq_false_iff]
  constructor
  · rw [decide_eq_false_iff_not]
    intro he
    subst he
    exact absurd h (by decide)
  · exact digit_not_ws c h

/-- The normalization of a well-shaped video code (uppercase prefix, optional
hyphen, zero padding, digits) is the code itself. -/
theorem code_normalized (pre num : List Char) (hyp1 : Bool) (j : Nat)
    (hpre : pre ≠ []) (hpreU : ∀ c ∈ pre, isUpperAZ c = true)
    (hnum : num ≠ []) (hnumD : ∀ c ∈ num, isDigitC c = true) :
    upperL (pyStrip (splitDotHead
        (pre ++ (cond hyp1 ['-'] []) ++ List.replicate j '0' ++ num)))
      = pre ++ (cond hyp1 ['-'] []) ++ List.replicate j '0' ++ num := by
  have hclass : ∀ c ∈ pre ++ ((cond hyp1 ['-'] []) ++ (List.replicate j '0' ++ num)),
      c.toNat ≤ 96 ∧ c ≠ '.' := by
    intro c hc
    rw [List.mem_append] at hc
    rcases hc with hc | hc
    · have hu := hpreU c hc
      refine ⟨upper_le_96 c hu, fun he => ?_⟩
      subst he
      exact absurd hu (by decide)
    · rw [List.mem_append] at hc
      rcases hc with hc | hc
      · cases hyp1 with
        | true =>
          simp only [cond_true, List.mem_singleton] at hc
          subst hc
          exact ⟨by decide, by decide⟩
        | false => simp at hc
      · rw [List.mem_append] at hc
        rcases hc with hc | hc
        · have := List.eq_of_mem_replicate hc
          subst this
          exact ⟨by decide, by decide⟩
        · have hd := hnumD c hc
          refine ⟨digit_le_96 c hd, fun he => ?_⟩
          subst he
          exact absurd hd (by decide)
  rw [List.append_assoc, List.append_assoc] at *
  unfold splitDotHead
  rw [takeWhile_all _ _ (by intro c hc; simpa using (hclass c hc).2)]
  unfold pyStrip
  rw [dropWhile_head_stop Char.isWhitespace
    (pre ++ ((cond hyp1 ['-'] []) ++ (List.replicate j '0' ++ num))) (by
    intro c hc
    cases pre with
    | nil => exact absurd rfl hpre
    | cons p0 pt =>
      have hc2 : c = p0 := by
        rw [List.cons_append, List.head?_cons, Option.some.injEq] at hc
        exact hc.symm
      rw [hc2]
      exact upper_not_ws p0 (hpreU p0 (by simp)))]
  rw [dropWhile_head_stop Char.isWhitespace
    (pre ++ ((cond hyp1 ['-'] []) ++ (List.replicate j '0' ++ num))).reverse (by
    intro c hc
    rw [List.head?_reverse] at hc
    cases hrev : num.reverse with
    | nil => exact absurd (List.reverse_eq_nil_iff.mp hrev) hnum
    | cons n0 nt =>
      have hlast : num.getLast? = some n0 := by
        rw [List.getLast?_eq_head?_reverse, hrev, List.head?_cons]
      rw [List.getLast?_append, List.getLast?_append, List.getLast?_append, hlast] at hc
      simp only [Option.or_some, Option.some.injEq] at hc
      have hc2 : c = n0 := hc.symm
      have hmemn : n0 ∈ num := List.mem_reverse.mp (by rw [hrev]; simp)
      rw [hc2]
      exact digit_not_ws n0 (hnumD n0 hmemn))]
  rw [List.reverse_reverse]
  exact upperL_eq_self _ (fun c hc => (hclass c hc).1)

/-- The anchored group regex splits a well-shaped code into its letter prefix
and its (possibly zero-padded) digit group. -/
theorem code_rematch (pre num : List Char) (hyp1 : Bool) (j : Nat)
    (hpre : pre ≠ []) (hpreU : ∀ c ∈ pre, isUpperAZ c = true)
    (hnum : num ≠ []) (hnumD : ∀ c ∈ num, isDigitC c = true) :
    reMatchCodeParts (pre ++ (cond hyp1 ['-'] []) ++ List.replicate j '0' ++ num)
      = some (pre, List.replicate j '0' ++ num) := by
  rw [List.append_assoc, List.append_assoc]
  have hznhead : ∀ c, (List.replicate j '0' ++ num).head? = some c →
      (decide (c = '-') || c.isWhitespace) = false := by
    intro c hc
    cases j with
    | zero =>
      rw [List.replicate_zero, List.nil_append] at hc
      cases num with
      | nil => exact absurd rfl hnum
      | cons n0 nt =>
        rw [List.head?_cons, Option.some.injEq] at hc
        rw [← hc]
        exact digit_not_sep n0 (hnumD n0 (by simp))
    | succ m =>
      rw [List.replicate_succ, List.cons_append, List.head?_cons, Option.some.injEq] at hc
      rw [← hc]
      decide
  have hrhead : ∀ c, ((cond hyp1 ['-'] []) ++ (List.replicate j '0' ++ num)).head? = some c →
      isUpperAZ c = false := by
    intro c hc
    cases hyp1 with
    | true =>
      rw [cond_true, List.cons_append, List.head?_cons, Option.some.injEq] at hc
      rw [← hc]
      decide
    | false =>
      rw [cond_false, List.nil_append] at hc
      cases j with
      | zero =>
        rw [List.replicate_zero, List.nil_append] at hc
        cases num with
        | nil => exact absurd rfl hnum
        | cons n0 nt =>
          rw [List.head?_cons, Option.some.injEq] at hc
          rw [← hc]
          exact digit_not_upper n0 (hnumD n0 (by simp))
      | succ m =>
        rw [List.replicate_succ, List.cons_append, List.head?_cons, Option.some.injEq] at hc
        rw [← hc]
        decide
  unfold reMatchCodeParts
  rw [takeWhile_append_stop isUpperAZ pre _ hpreU hrhead]
  have hempty : pre.isEmpty = false := by
    cases pre with
    | nil => exact absurd rfl hpre
    | cons a b => rfl
  dsimp only
  rw [hempty]
  simp only [Bool.false_eq_true, if_false, drop_len_append]
  have hdropsep : ((cond hyp1 ['-'] []) ++ (List.replicate j '0' ++ num)).dropWhile
      (fun c => decide (c = '-') || c.isWhitespace) = List.replicate j '0' ++ num := by
    cases hyp1 with
    | true =>
      rw [cond_true, List.cons_append, List.dropWhile_cons]
      rw [show (decide ('-' = '-') || Char.isWhitespace '-') = true from by decide]
      simp only [if_true]
      exact dropWhile_head_stop _ _ hznhead
    | false =>
      rw [cond_false, List.nil_append]
      exact dropWhile_head_stop _ _ hznhead
  rw [hdropsep]
  rw [takeWhile_all isDigitC _ (by
    intro c hc
    rw [List.mem_append] at hc
    rcases hc with hc | hc
    · rw [List.eq_of_mem_replicate hc]
      decide
    · exact hnumD c hc)]
  have hne : (List.replicate j '0' ++ num).isEmpty = false := by
    cases hn : List.replicate j '0' ++ num with
    | nil =>
      rw [List.append_eq_nil] at hn
      exact absurd hn.2 hnum
    | cons a b => rfl
  rw [hne]
  rfl

/-- Stripping leading zeros from the padded digit group recovers the
zero-free number. -/
theorem stripZeros_pad (num : List Char) (j : Nat)
    (hnz : ∀ c, num.head? = some c → c ≠ '0') :
    stripZeros (List.replicate j '0' ++ num) = num := by
  induction j with
  | zero =>
    rw [List.replicate_zero, List.nil_append]
    unfold stripZeros
    refine dropWhile_head_stop _ _ ?_
    intro c hc
    rw [decide_eq_false_iff_not]
    exact hnz c hc
  | succ m ih =>
    rw [List.replicate_succ, List.cons_append]
    unfold stripZeros at ih ⊢
    rw [List.dropWhile_cons]
    rw [show (decide ('0' = '0')) = true from by decide]
    simpa using ih

/-- A whitespace character is not the zero digit. -/
theorem ws_ne_zero (c : Char) (h : c.isWhitespace = true) : (decide (c = '0')) = false := by
  rw [Char.isWhitespace] at h
  simp only [Bool.or_eq_true, decide_eq_true_eq] at h
  rw [decide_eq_false_iff_not]
  rcases h with ((h1 | h1) | h1) | h1 <;> subst h1 <;> decide

/-- The `0*<num>\s` matcher succeeds on the padded number followed by any
whitespace character. -/
theorem zerosNumWs_pad (num tail : List Char) (ws : Char) (k : Nat)
    (hnz : ∀ c, num.head? = some c → c ≠ '0') (hws : ws.isWhitespace = true) :
    zerosNumWs num (List.replicate k '0' ++ (num ++ ws :: tail)) = true := by
  unfold zerosNumWs
  rw [List.any_eq_true]
  refine ⟨k, List.mem_range.mpr ?_, ?_⟩
  · have hcount : (List.replicate k '0' ++ (num ++ ws :: tail)).takeWhile
        (fun c => decide (c = '0')) = List.replicate k '0' := by
      refine takeWhile_append_stop _ _ _ ?_ ?_
      · intro c hc
        rw [List.eq_of_mem_replicate hc]
        decide
      · intro c hc
        cases num with
        | nil =>
          rw [List.nil_append, List.head?_cons, Option.some.injEq] at hc
          rw [← hc]
          exact ws_ne_zero ws hws
        | cons n0 nt =>
          rw [List.cons_append, List.head?_cons, Option.some.injEq] at hc
          rw [← hc, decide_eq_false_iff_not]
          exact hnz n0 rfl
    rw [hcount, List.length_replicate]
    omega
  · have hdrop : (List.replicate k '0' ++ (num ++ ws :: tail)).drop k = num ++ ws :: tail := by
      have := drop_len_append (List.replicate k '0') (num ++ ws :: tail)
      rwa [List.length_replicate] at this
    rw [hdrop]
    unfold numThenWs
    rw [hasPrefixB_self_append, drop_len_append]
    dsimp only
    rw [hws]
    rfl

/-- C5 amended: the duplicate-code check recognizes the video code at the
start of the title exactly in these cases: the uppercased title starts with
the code in optional-hyphen, any-zero-padding, any-letter-case form followed
by a whitespace character; or the uppercased title starts with the exact
normalized code; or with the exact canonical (zero-stripped) code — in all
of these the filename is the original title.  A title whose uppercase form
does not even start with the code letter prefix gets the video code
prepended.  (A title starting with a differently-padded code NOT followed by
whitespace is not recognized: see the counterexample.) -/
theorem main_format_filename_amended (pre num : List Char) (hyp1 : Bool) (j : Nat)
    (hpre : pre ≠ []) (hpreU : ∀ c ∈ pre, isUpperAZ c = true)
    (hnum : num ≠ []) (hnumD : ∀ c ∈ num, isDigitC c = true)
    (hnz : ∀ c, num.head? = some c → c ≠ '0') :
    (∀ (hyp2 : Bool) (k : Nat) (ws : Char) (tail ot : List Char),
      ws.isWhitespace = true →
      upperL ot = pre ++ (cond hyp2 ['-'] []) ++ List.replicate k '0' ++ num ++ ws :: tail →
      main_format_filename (pre ++ (cond hyp1 ['-'] []) ++ List.replicate j '0' ++ num) ot
        = some ot) ∧
      (∀ (rest ot : List Char),
        upperL ot = (pre ++ (cond hyp1 ['-'] []) ++ List.replicate j '0' ++ num) ++ rest →
        main_format_filename (pre ++ (cond hyp1 ['-'] []) ++ List.replicate j '0' ++ num) ot
          = some ot) ∧
      (∀ (rest ot : List Char),
        upperL ot = (pre ++ '-' :: num) ++ rest →
        main_format_filename (pre ++ (cond hyp1 ['-'] []) ++ List.replicate j '0' ++ num) ot
          = some ot) ∧
      (∀ ot, hasPrefixB pre (upperL ot) = false →
        main_format_filename (pre ++ (cond hyp1 ['-'] []) ++ List.replicate j '0' ++ num) ot
          = some ((pre ++ (cond hyp1 ['-'] []) ++ List.replicate j '0' ++ num) ++
              ' ' :: ot)) := by
  have hnorm := code_normalized pre num hyp1 j hpre hpreU hnum hnumD
  have hrem := code_rematch pre num hyp1 j hpre hpreU hnum hnumD
  have hstrip := stripZeros_pad num j hnz
  refine ⟨?_, ?_, ?_, ?_⟩
  · intro hyp2 k ws tail ot hws hsh
    have hsh2 : upperL ot =
        pre ++ ((cond hyp2 ['-'] []) ++ (List.replicate k '0' ++ (num ++ ws :: tail))) := by
      rw [hsh, List.append_assoc, List.append_assoc, List.append_assoc]
    have hpm : padMatchHyphen pre num (upperL ot) = true := by
      unfold padMatchHyphen
      rw [hsh2, hasPrefixB_self_append, drop_len_append]
      cases hyp2 with
      | false =>
        rw [cond_false, List.nil_append]
        rw [zerosNumWs_pad num tail ws k hnz hws]
        simp
      | true =>
        rw [cond_true, List.cons_append, List.nil_append]
        dsimp only
        rw [zerosNumWs_pad num tail ws k hnz hws]
        simp
    unfold main_format_filename
    dsimp only
    rw [hnorm, hrem]
    dsimp only
    rw [hstrip]
    rw [hpm]
    simp
  · intro rest ot hsh
    unfold main_format_filename
    dsimp only
    rw [hnorm, hrem]
    dsimp only
    rw [hstrip]
    rw [hsh, hasPrefixB_self_append]
    simp
  · intro rest ot hsh
    unfold main_format_filename
    dsimp only
    rw [hnorm, hrem]
    dsimp only
    rw [hstrip]
    rw [hsh, hasPrefixB_self_append]
    simp
  · intro ot hnp
    have hfalse : ∀ q : List Char, hasPrefixB (pre ++ q) (upperL ot) = false := by
      intro q
      by_contra hAc
      rw [Bool.not_eq_false] at hAc
      have := hasPrefixB_append_left pre q (upperL ot) hAc
      rw [hnp] at this
      exact Bool.false_ne_true this
    have hC : padMatchHyphen pre num (upperL ot) = false := by
      unfold padMatchHyphen
      rw [hnp, Bool.false_and]
    have hD : padMatchNoHyphen pre num (upperL ot) = false := by
      unfold padMatchNoHyphen
      rw [hnp, Bool.false_and]
    unfold main_format_filename
    dsimp only
    rw [hnorm, hrem]
    dsimp only
    rw [hstrip]
    rw [List.append_assoc, List.append_assoc, hfalse, hC, hD]
    rw [show pre ++ '-' :: num = pre ++ ('-' :: num) from rfl, hfalse]
    simp [List.append_assoc]

/-- Witness for C5 amended: the title with a tab after the padded code
("hrd00038" then tab then "X") is recognized against the code "HRD-038", as
are titles starting with the exact normalized code and the exact canonical
code; a title not starting with the letter prefix gets the code prepended. -/
theorem main_format_filename_amended_witness :
    main_format_filename ("HRD".toList ++ (cond true ['-'] []) ++ List.replicate 1 '0' ++
        "38".toList) "hrd00038\tX".toList = some ("hrd00038\tX".toList) ∧
      main_format_filename ("HRD".toList ++ (cond true ['-'] []) ++ List.replicate 1 '0' ++
          "38".toList) "hrd-038abc".toList = some ("hrd-038abc".toList) ∧
      main_format_filename ("HRD".toList ++ (cond true ['-'] []) ++ List.replicate 1 '0' ++
          "38".toList) "hrd-38!".toList = some ("hrd-38!".toList) ∧
      main_format_filename ("HRD".toList ++ (cond true ['-'] []) ++ List.replicate 1 '0' ++
          "38".toList) "Other title".toList =
        some (("HRD".toList ++ (cond true ['-'] []) ++ List.replicate 1 '0' ++
          "38".toList) ++ ' ' :: "Other title".toList) := by
  have h := main_format_filename_amended "HRD".toList "38".toList true 1
    (by decide) (by decide) (by decide) (by decide)
    (by intro c hc
        rw [show ("38".toList.head? = some '3') from rfl, Option.some.injEq] at hc
        rw [hc.symm]
        decide)
  refine ⟨?_, ?_, ?_, ?_⟩
  · exact h.1 false 3 '\t' "X".toList "hrd00038\tX".toList (by decide) (by decide)
  · exact h.2.1 "ABC".toList "hrd-038abc".toList (by decide)
  · exact h.2.2.1 "!".toList "hrd-38!".toList (by decide)
  · exact h.2.2.2 "Other title".toList (by decide)

/-! ### scraper.py: extract_video_code (lines 349-374)

The three `re.search` patterns `([A-Z]{2,5})-?(\d{3,5})`,
`([A-Z]{2,5})(\d{3,5})` and `([A-Z]{2,5}) ?(\d{3,5})` (all IGNORECASE) are
embedded with their exact backtracking behaviour: at every start position,
the greedy letter quantifier tries lengths 5 down to 2, the optional
separator prefers consuming its character, and the greedy digit quantifier
tries lengths 5 down to 3; the leftmost position with a match wins. -/

/-- Match exactly `l` letters from the front, returning the group and the
remainder. -/
def splitLetters : Nat → List Char → Option (List Char × List Char)
  | 0, cs => some ([], cs)
  | _ + 1, [] => none
  | l + 1, c :: cs =>
    if isAsciiLetter c then (splitLetters l cs).map (fun pr => (c :: pr.1, pr.2))
    else none

/-- Match exactly `d` digits from the front, returning the group and the
remainder. -/
def splitDigitsN : Nat → List Char → Option (List Char × List Char)
  | 0, cs => some ([], cs)
  | _ + 1, [] => none
  | d + 1, c :: cs =>
    if isDigitC c then (splitDigitsN d cs).map (fun pr => (c :: pr.1, pr.2))
    else none

/-- The three separator shapes of the code patterns: optional hyphen, no
separator, optional space. -/
inductive SepKind where
  | hyphenOpt
  | noSep
  | spaceOpt
deriving DecidableEq

/-- The remainders the separator may leave, in greedy preference order (the
optional quantifier consumes its character first when present). -/
def sepCandidates : SepKind → List Char → List (List Char)
  | .hyphenOpt, cs => if cs.head? = some '-' then [cs.tail, cs] else [cs]
  | .noSep, cs => [cs]
  | .spaceOpt, cs => if cs.head? = some ' ' then [cs.tail, cs] else [cs]

/-- First successful result of `f` over a list of alternatives. -/
def firstSome {A B : Type} (f : A → Option B) : List A → Option B
  | [] => none
  | a :: as =>
    match f a with
    | some b => some b
    | none => firstSome f as

/-- One digit-group attempt of width `d` after the separator; on success the
captured groups are the letter group `pre` and the digit group. -/
def digitAttempt (pre rest2 : List Char) (d : Nat) : Option (List Char × List Char) :=
  match splitDigitsN d rest2 with
  | none => none
  | some dr => some (pre, dr.1)

/-- The greedy digit quantifier: widths 5, 4, 3 in preference order. -/
def sepDigitAttempt (pre rest2 : List Char) : Option (List Char × List Char) :=
  firstSome (digitAttempt pre rest2) [5, 4, 3]

/-- One letter-group attempt of width `l` at the current position, followed by
the separator alternatives and the digit loop. -/
def letterAttempt (sep : SepKind) (cs : List Char) (l : Nat) :
    Option (List Char × List Char) :=
  match splitLetters l cs with
  | none => none
  | some pr => firstSome (sepDigitAttempt pr.1) (sepCandidates sep pr.2)

/-- Attempt one code pattern at the current position: letters (greedy 5 down
to 2), separator, digits (greedy 5 down to 3); returns the two groups. -/
def matchPatAt (sep : SepKind) (cs : List Char) : Option (List Char × List Char) :=
  firstSome (letterAttempt sep cs) [5, 4, 3, 2]

/-- Leftmost-match search of one code pattern, modelling `re.search`. -/
def reSearch (sep : SepKind) : List Char → Option (List Char × List Char)
  | [] => matchPatAt sep []
  | c :: cs =>
    match matchPatAt sep (c :: cs) with
    | some r => some r
    | none => reSearch sep cs

/-- Python `str.zfill(3)` on a digit string. -/
def zfill3 (cs : List Char) : List Char :=
  if cs.length < 3 then List.replicate (3 - cs.length) '0' ++ cs else cs

/-- Python `title_or_url.split('/')[-1]`: the segment after the last slash. -/
def lastSlashSegment (cs : List Char) : List Char :=
  (cs.reverse.takeWhile (fun c => c ≠ '/')).reverse

/-- Model of `scraper.extract_video_code`: try the three code patterns in
order; on a match, emit the uppercased letter group, a hyphen, and the digit
group zero-filled to width 3; otherwise, when the input contains a slash,
fall back to the last path segment stripped to alphanumerics; otherwise (or
when that segment is empty) emit UNKNOWN with the current unix timestamp. -/
def extract_video_code (cs : List Char) (now : Nat) : List Char :=
  match reSearch .hyphenOpt cs with
  | some pr => upperL pr.1 ++ '-' :: zfill3 pr.2
  | none =>
    match reSearch .noSep cs with
    | some pr => upperL pr.1 ++ '-' :: zfill3 pr.2
    | none =>
      match reSearch .spaceOpt cs with
      | some pr => upperL pr.1 ++ '-' :: zfill3 pr.2
      | none =>
        if cs.contains '/' then
          let clean := (lastSlashSegment cs).filter isAlnumC
          if clean.isEmpty then "UNKNOWN-".toList ++ (Nat.repr now).toList
          else clean
        else "UNKNOWN-".toList ++ (Nat.repr now).toList

/-- C1 counterexample: the claim says "ABC 7" maps to "ABC-007", but every
pattern requires at least 3 digits, so nothing matches, there is no slash,
and the result is the UNKNOWN timestamp fallback. -/
theorem extract_video_code_claim_counterexample :
    extract_video_code ("ABC 7".toList) 42 = "UNKNOWN-42".toList ∧
      ¬ extract_video_code ("ABC 7".toList) 42 = "ABC-007".toList := by
  constructor
  · decide
  · decide

/-- firstSome returns the head alternative on success. -/
theorem firstSome_cons_some {A B : Type} (f : A → Option B) (a : A) (l : List A) (b : B)
    (h : f a = some b) : firstSome f (a :: l) = some b := by
  have hu : firstSome f (a :: l) =
      match f a with | some b => some b | none => firstSome f l := rfl
  rw [hu, h]

/-- firstSome skips a failing head alternative. -/
theorem firstSome_cons_none {A B : Type} (f : A → Option B) (a : A) (l : List A)
    (h : f a = none) : firstSome f (a :: l) = firstSome f l := by
  have hu : firstSome f (a :: l) =
      match f a with | some b => some b | none => firstSome f l := rfl
  rw [hu, h]

/-- firstSome fails when every alternative fails. -/
theorem firstSome_none {A B : Type} (f : A → Option B) (l : List A)
    (h : ∀ a ∈ l, f a = none) : firstSome f l = none := by
  induction l with
  | nil => rfl
  | cons a as ih =>
    rw [firstSome_cons_none f a as (h a (by simp))]
    exact ih (fun x hx => h x (by simp [hx]))

/-- splitLetters with a length bounded by the letter block splits inside it. -/
theorem splitLetters_le (l : Nat) (x r : List Char)
    (hx : ∀ c ∈ x, isAsciiLetter c = true) (hl : l ≤ x.length) :
    splitLetters l (x ++ r) = some (x.take l, x.drop l ++ r) := by
  induction x generalizing l with
  | nil =>
    cases l with
    | zero => rfl
    | succ m => simp at hl
  | cons c t ih =>
    cases l with
    | zero => rfl
    | succ m =>
      rw [List.cons_append]
      unfold splitLetters
      rw [if_pos (hx c (by simp))]
      rw [ih m (fun d hd => hx d (by simp [hd])) (by simpa using hl)]
      rfl

/-- splitLetters fails when the requested length overruns the letter block
and the next character is not a letter. -/
theorem splitLetters_overrun (l : Nat) (x r : List Char)
    (hx : ∀ c ∈ x, isAsciiLetter c = true) (hl : x.length < l)
    (hr : ∀ c, r.head? = some c → isAsciiLetter c = false) :
    splitLetters l (x ++ r) = none := by
  induction x generalizing l with
  | nil =>
    cases l with
    | zero => omega
    | succ m =>
      cases r with
      | nil => rfl
      | cons c t =>
        rw [List.nil_append]
        unfold splitLetters
        rw [if_neg (by rw [hr c rfl]; exact Bool.false_ne_true)]
  | cons c t ih =>
    cases l with
    | zero => omega
    | succ m =>
      rw [List.cons_append]
      unfold splitLetters
      rw [if_pos (hx c (by simp))]
      rw [ih m (fun d hd => hx d (by simp [hd])) (by simpa using hl)]
      rfl

/-- splitDigitsN consumes exactly the digit block when asked for its
length. -/
theorem splitDigitsN_exact (n r : List Char) (hn : ∀ c ∈ n, isDigitC c = true) :
    splitDigitsN n.length (n ++ r) = some (n, r) := by
  induction n with
  | nil => rfl
  | cons c t ih =>
    rw [List.length_cons, List.cons_append]
    unfold splitDigitsN
    rw [if_pos (hn c (by simp))]
    rw [ih (fun d hd => hn d (by simp [hd]))]
    rfl

/-- splitDigitsN fails when the input is shorter than the requested width. -/
theorem splitDigitsN_too_short (d : Nat) (n : List Char) (h : n.length < d) :
    splitDigitsN d n = none := by
  induction n generalizing d with
  | nil =>
    cases d with
    | zero => omega
    | succ m => rfl
  | cons c t ih =>
    cases d with
    | zero => omega
    | succ m =>
      unfold splitDigitsN
      by_cases hc : isDigitC c = true
      · rw [if_pos hc, ih m (by simpa using h)]
        rfl
      · rw [Bool.not_eq_true] at hc
        rw [if_neg (by rw [hc]; exact Bool.false_ne_true)]

/-- splitDigitsN with positive width fails on a non-digit head. -/
theorem splitDigitsN_head_fail (d : Nat) (cs : List Char)
    (hd : 1 ≤ d) (hc : ∀ c, cs.head? = some c → isDigitC c = false) :
    splitDigitsN d cs = none := by
  cases d with
  | zero => omega
  | succ m =>
    cases cs with
    | nil => rfl
    | cons c t =>
      unfold splitDigitsN
      rw [if_neg (by rw [hc c rfl]; exact Bool.false_ne_true)]

/-- A digit is not an ASCII letter. -/
theorem digit_not_letter (c : Char) (h : isDigitC c = true) : isAsciiLetter c = false := by
  simp only [isDigitC, Bool.and_eq_true, decide_eq_true_eq] at h
  simp only [isAsciiLetter, isUpperAZ, isLowerAZ, Bool.or_eq_false_iff,
    Bool.and_eq_false_iff, decide_eq_false_iff_not]
  omega

/-- An ASCII letter is not a digit. -/
theorem letter_not_digit (c : Char) (h : isAsciiLetter c = true) : isDigitC c = false := by
  simp only [isAsciiLetter, isUpperAZ, isLowerAZ, Bool.or_eq_true, Bool.and_eq_true,
    decide_eq_true_eq] at h
  simp only [isDigitC, Bool.and_eq_false_iff, decide_eq_false_iff_not]
  omega

/-- An ASCII letter is not the hyphen. -/
theorem letter_ne_hyphen (c : Char) (h : isAsciiLetter c = true) : c ≠ '-' := by
  intro he
  subst he
  exact absurd h (by decide)

/-- An ASCII letter is not the space. -/
theorem letter_ne_space (c : Char) (h : isAsciiLetter c = true) : c ≠ ' ' := by
  intro he
  subst he
  exact absurd h (by decide)

/-- splitLetters with positive width fails on a non-letter head. -/
theorem splitLetters_head_fail (l : Nat) (cs : List Char)
    (hl : 1 ≤ l) (hc : ∀ c, cs.head? = some c → isAsciiLetter c = false) :
    splitLetters l cs = none := by
  cases l with
  | zero => omega
  | succ m =>
    cases cs with
    | nil => rfl
    | cons c t =>
      unfold splitLetters
      rw [if_neg (by rw [hc c rfl]; exact Bool.false_ne_true)]

/-- The greedy digit loop [5, 4, 3] of one pattern attempt returns the whole
digit block when it has between 3 and 5 digits and nothing follows. -/
theorem digitLoop_exact (pre n : List Char) (hn : ∀ c ∈ n, isDigitC c = true)
    (h3 : 3 ≤ n.length) (h5 : n.length ≤ 5) :
    sepDigitAttempt pre n = some (pre, n) := by
  have hexact : splitDigitsN n.length n = some (n, []) := by
    have := splitDigitsN_exact n [] hn
    rwa [List.append_nil] at this
  have hsome : digitAttempt pre n n.length = some (pre, n) := by
    unfold digitAttempt
    rw [hexact]
  have hnone : ∀ d, n.length < d → digitAttempt pre n d = none := by
    intro d hd
    unfold digitAttempt
    rw [splitDigitsN_too_short d n hd]
  unfold sepDigitAttempt
  have hcase : n.length = 3 ∨ n.length = 4 ∨ n.length = 5 := by omega
  rcases hcase with hc | hc | hc
  · rw [firstSome_cons_none _ _ _ (hnone 5 (by omega)),
      firstSome_cons_none _ _ _ (hnone 4 (by omega))]
    exact firstSome_cons_some _ _ _ _ (hc ▸ hsome)
  · rw [firstSome_cons_none _ _ _ (hnone 5 (by omega))]
    exact firstSome_cons_some _ _ _ _ (hc ▸ hsome)
  · exact firstSome_cons_some _ _ _ _ (hc ▸ hsome)

/-- The separator step of one pattern attempt, on input shaped separator ++
digits, hands the digit block to the digit loop. -/
theorem sepDigits_exact (sep : SepKind) (s pre n : List Char)
    (hcompat : (sep = SepKind.hyphenOpt ∧ (s = [] ∨ s = ['-'])) ∨
      (sep = SepKind.noSep ∧ s = []) ∨
      (sep = SepKind.spaceOpt ∧ (s = [] ∨ s = [' '])))
    (hn : ∀ c ∈ n, isDigitC c = true) (h3 : 3 ≤ n.length) (h5 : n.length ≤ 5) :
    firstSome (sepDigitAttempt pre) (sepCandidates sep (s ++ n)) = some (pre, n) := by
  obtain ⟨n0, nt, rfl⟩ : ∃ n0 nt, n = n0 :: nt := by
    cases n with
    | nil => simp at h3
    | cons a b => exact ⟨a, b, rfl⟩
  have hd0 : isDigitC n0 = true := hn n0 (by simp)
  have hn0h : n0 ≠ '-' := by
    intro he
    subst he
    exact absurd hd0 (by decide)
  have hn0s : n0 ≠ ' ' := by
    intro he
    subst he
    exact absurd hd0 (by decide)
  have hloop := digitLoop_exact pre (n0 :: nt) hn h3 h5
  rcases hcompat with ⟨rfl, hs⟩ | ⟨rfl, rfl⟩ | ⟨rfl, hs⟩
  · rcases hs with rfl | rfl
    · rw [List.nil_append]
      unfold sepCandidates
      dsimp only
      rw [if_neg (by
        rw [List.head?_cons, Option.some.injEq]
        exact fun he => hn0h he)]
      exact firstSome_cons_some _ _ _ _ hloop
    · rw [List.cons_append, List.nil_append]
      unfold sepCandidates
      dsimp only
      rw [if_pos (by rw [List.head?_cons]), List.tail_cons]
      exact firstSome_cons_some _ _ _ _ hloop
  · rw [List.nil_append]
    unfold sepCandidates
    dsimp only
    exact firstSome_cons_some _ _ _ _ hloop
  · rcases hs with rfl | rfl
    · rw [List.nil_append]
      unfold sepCandidates
      dsimp only
      rw [if_neg (by
        rw [List.head?_cons, Option.some.injEq]
        exact fun he => hn0s he)]
      exact firstSome_cons_some _ _ _ _ hloop
    · rw [List.cons_append, List.nil_append]
      unfold sepCandidates
      dsimp only
      rw [if_pos (by rw [List.head?_cons]), List.tail_cons]
      exact firstSome_cons_some _ _ _ _ hloop

/-- One pattern attempt succeeds at a position whose suffix is exactly
letters ++ separator ++ digits with the block lengths of the patterns. -/
theorem matchPatAt_exact (sep : SepKind) (s p n : List Char)
    (hcompat : (sep = SepKind.hyphenOpt ∧ (s = [] ∨ s = ['-'])) ∨
      (sep = SepKind.noSep ∧ s = []) ∨
      (sep = SepKind.spaceOpt ∧ (s = [] ∨ s = [' '])))
    (hp : ∀ c ∈ p, isAsciiLetter c = true) (hp2 : 2 ≤ p.length) (hp5 : p.length ≤ 5)
    (hn : ∀ c ∈ n, isDigitC c = true) (hn3 : 3 ≤ n.length) (hn5 : n.length ≤ 5) :
    matchPatAt sep (p ++ (s ++ n)) = some (p, n) := by
  have hheadSN : ∀ c, (s ++ n).head? = some c → isAsciiLetter c = false := by
    intro c hc
    have hsval : s = [] ∨ s = ['-'] ∨ s = [' '] := by
      rcases hcompat with ⟨_, hs⟩ | ⟨_, rfl⟩ | ⟨_, hs⟩
      · rcases hs with rfl | rfl
        · exact Or.inl rfl
        · exact Or.inr (Or.inl rfl)
      · exact Or.inl rfl
      · rcases hs with rfl | rfl
        · exact Or.inl rfl
        · exact Or.inr (Or.inr rfl)
    rcases hsval with rfl | rfl | rfl
    · rw [List.nil_append] at hc
      cases n with
      | nil => simp at hc
      | cons n0 nt =>
        rw [List.head?_cons, Option.some.injEq] at hc
        rw [← hc]
        exact digit_not_letter n0 (hn n0 (by simp))
    · rw [List.cons_append, List.head?_cons, Option.some.injEq] at hc
      rw [← hc]
      decide
    · rw [List.cons_append, List.head?_cons, Option.some.injEq] at hc
      rw [← hc]
      decide
  have hbranch_none : ∀ l, p.length < l → letterAttempt sep (p ++ (s ++ n)) l = none := by
    intro l hl
    unfold letterAttempt
    rw [splitLetters_overrun l p (s ++ n) hp hl hheadSN]
  have hbranch_some : letterAttempt sep (p ++ (s ++ n)) p.length = some (p, n) := by
    unfold letterAttempt
    rw [splitLetters_le p.length p (s ++ n) hp (le_refl _)]
    dsimp only
    rw [List.take_length, List.drop_length, List.nil_append]
    exact sepDigits_exact sep s p n hcompat hn hn3 hn5
  unfold matchPatAt
  have hcase : p.length = 2 ∨ p.length = 3 ∨ p.length = 4 ∨ p.length = 5 := by omega
  rcases hcase with hc | hc | hc | hc
  · rw [firstSome_cons_none _ _ _ (hbranch_none 5 (by omega)),
      firstSome_cons_none _ _ _ (hbranch_none 4 (by omega)),
      firstSome_cons_none _ _ _ (hbranch_none 3 (by omega))]
    exact firstSome_cons_some _ _ _ _ (hc ▸ hbranch_some)
  · rw [firstSome_cons_none _ _ _ (hbranch_none 5 (by omega)),
      firstSome_cons_none _ _ _ (hbranch_none 4 (by omega))]
    exact firstSome_cons_some _ _ _ _ (hc ▸ hbranch_some)
  · rw [firstSome_cons_none _ _ _ (hbranch_none 5 (by omega))]
    exact firstSome_cons_some _ _ _ _ (hc ▸ hbranch_some)
  · exact firstSome_cons_some _ _ _ _ (hc ▸ hbranch_some)

/-- reSearch returns the position-zero match when one exists. -/
theorem reSearch_head_some (sep : SepKind) (cs : List Char) (r : List Char × List Char)
    (h : matchPatAt sep cs = some r) : reSearch sep cs = some r := by
  cases cs with
  | nil => rw [reSearch, h]
  | cons c t =>
    have hu : reSearch sep (c :: t) =
        match matchPatAt sep (c :: t) with
        | some r => some r
        | none => reSearch sep t := rfl
    rw [hu, h]

/-- reSearch steps to the next position when the current one fails. -/
theorem reSearch_cons_none (sep : SepKind) (c : Char) (t : List Char)
    (h : matchPatAt sep (c :: t) = none) : reSearch sep (c :: t) = reSearch sep t := by
  have hu : reSearch sep (c :: t) =
      match matchPatAt sep (c :: t) with
      | some r => some r
      | none => reSearch sep t := rfl
  rw [hu, h]

/-- A pattern attempt fails when the current position does not start with a
letter. -/
theorem matchPatAt_head_nonletter (sep : SepKind) (cs : List Char)
    (h : ∀ c, cs.head? = some c → isAsciiLetter c = false) :
    matchPatAt sep cs = none := by
  unfold matchPatAt
  refine firstSome_none _ _ ?_
  intro l hl
  have hl1 : 1 ≤ l := by
    simp only [List.mem_cons, List.not_mem_nil, or_false] at hl
    rcases hl with rfl | rfl | rfl | rfl <;> omega
  unfold letterAttempt
  rw [splitLetters_head_fail l cs hl1 h]

/-- The whole-pattern search fails on a pure digit string. -/
theorem reSearch_digits_none (sep : SepKind) (n : List Char)
    (hn : ∀ c ∈ n, isDigitC c = true) : reSearch sep n = none := by
  induction n with
  | nil =>
    rw [reSearch]
    exact matchPatAt_head_nonletter sep [] (by intro c hc; cases hc)
  | cons c t ih =>
    rw [reSearch_cons_none sep c t (matchPatAt_head_nonletter sep (c :: t) (by
      intro d hd
      rw [List.head?_cons, Option.some.injEq] at hd
      rw [← hd]
      exact digit_not_letter c (hn c (by simp))))]
    exact ih (fun d hd => hn d (by simp [hd]))

/-- After any run of letters, the hyphen-optional and no-separator patterns
cannot continue across a space: the separator consumes nothing and the digit
group fails on the space or on a further letter. -/
theorem innerLoop_space_none (sep : SepKind)
    (hsep : sep = SepKind.hyphenOpt ∨ sep = SepKind.noSep)
    (pre rest : List Char) (c0 : Char) (hh : rest.head? = some c0)
    (hc0 : c0 = ' ' ∨ isAsciiLetter c0 = true) :
    firstSome (sepDigitAttempt pre) (sepCandidates sep rest) = none := by
  have hnotd : ∀ c, rest.head? = some c → isDigitC c = false := by
    intro c hc
    rw [hh, Option.some.injEq] at hc
    rw [← hc]
    rcases hc0 with rfl | hc0
    · decide
    · exact letter_not_digit c0 hc0
  have hdl : sepDigitAttempt pre rest = none := by
    unfold sepDigitAttempt
    refine firstSome_none _ _ ?_
    intro d hd
    have hd1 : 1 ≤ d := by
      simp only [List.mem_cons, List.not_mem_nil, or_false] at hd
      rcases hd with rfl | rfl | rfl <;> omega
    unfold digitAttempt
    rw [splitDigitsN_head_fail d rest hd1 hnotd]
  have hnh : ¬ rest.head? = some '-' := by
    rw [hh, Option.some.injEq]
    rcases hc0 with rfl | hc0
    · decide
    · exact fun he => letter_ne_hyphen c0 hc0 he
  rcases hsep with rfl | rfl
  · unfold sepCandidates
    dsimp only
    rw [if_neg hnh]
    rw [firstSome_cons_none _ _ _ hdl]
    rfl
  · unfold sepCandidates
    dsimp only
    rw [firstSome_cons_none _ _ _ hdl]
    rfl

/-- The hyphen-optional and no-separator patterns fail at a position whose
suffix is letters ++ space ++ anything. -/
theorem matchPatAt_letters_space_none (sep : SepKind)
    (hsep : sep = SepKind.hyphenOpt ∨ sep = SepKind.noSep)
    (x n : List Char) (hx : ∀ c ∈ x, isAsciiLetter c = true) :
    matchPatAt sep (x ++ ' ' :: n) = none := by
  unfold matchPatAt
  refine firstSome_none _ _ ?_
  intro l hl
  have hl1 : 1 ≤ l := by
    simp only [List.mem_cons, List.not_mem_nil, or_false] at hl
    rcases hl with rfl | rfl | rfl | rfl <;> omega
  unfold letterAttempt
  by_cases hle : l ≤ x.length
  · rw [splitLetters_le l x (' ' :: n) hx hle]
    dsimp only
    cases hdrop : x.drop l with
    | nil =>
      rw [List.nil_append]
      exact innerLoop_space_none sep hsep (x.take l) (' ' :: n) ' ' (by rw [List.head?_cons])
        (Or.inl rfl)
    | cons c cr =>
      rw [List.cons_append]
      refine innerLoop_space_none sep hsep (x.take l) (c :: (cr ++ ' ' :: n)) c
        (by rw [List.head?_cons]) (Or.inr ?_)
      have hcmem : c ∈ x := (List.drop_sublist l x).subset (by rw [hdrop]; simp)
      exact hx c hcmem
  · rw [splitLetters_overrun l x (' ' :: n) hx (by omega) (by
      intro c hc
      rw [List.head?_cons, Option.some.injEq] at hc
      rw [← hc]
      decide)]

/-- The hyphen-optional and no-separator patterns fail everywhere on input
letters ++ space ++ digits. -/
theorem reSearch_letters_space_none (sep : SepKind)
    (hsep : sep = SepKind.hyphenOpt ∨ sep = SepKind.noSep)
    (x n : List Char) (hx : ∀ c ∈ x, isAsciiLetter c = true)
    (hn : ∀ c ∈ n, isDigitC c = true) :
    reSearch sep (x ++ ' ' :: n) = none := by
  induction x with
  | nil =>
    rw [List.nil_append]
    rw [reSearch_cons_none sep ' ' n (matchPatAt_letters_space_none sep hsep [] n (by
      intro c hc; cases hc))]
    exact reSearch_digits_none sep n hn
  | cons c t ih =>
    rw [List.cons_append]
    rw [reSearch_cons_none sep c (t ++ ' ' :: n) (by
      have := matchPatAt_letters_space_none sep hsep (c :: t) n hx
      rwa [List.cons_append] at this)]
    exact ih (fun d hd => hx d (by simp [hd]))

/-- C1 amended: for every input of the exact shape letters ++ separator ++
digits with a 2-5 letter prefix and a 3-5 digit numeric part (separator
empty, hyphen, or space), extract_video_code returns the uppercased prefix,
a hyphen, and the digit group unchanged (the zero-fill to width 3 is vacuous
because the patterns demand at least 3 digits); inputs whose numeric part
has fewer than 3 digits match no pattern and fall to the URL-segment or
UNKNOWN-timestamp fallback, and the empty string yields
UNKNOWN-<timestamp>. -/
theorem extract_video_code_amended (p sep n : List Char) (now : Nat)
    (hp : ∀ c ∈ p, isAsciiLetter c = true) (hp2 : 2 ≤ p.length) (hp5 : p.length ≤ 5)
    (hn : ∀ c ∈ n, isDigitC c = true) (hn3 : 3 ≤ n.length) (hn5 : n.length ≤ 5)
    (hs : sep = [] ∨ sep = ['-'] ∨ sep = [' ']) :
    extract_video_code (p ++ sep ++ n) now = upperL p ++ '-' :: n ∧
      extract_video_code [] now = "UNKNOWN-".toList ++ (Nat.repr now).toList := by
  have hzfill : zfill3 n = n := by
    unfold zfill3
    rw [if_neg (by omega)]
  refine ⟨?_, rfl⟩
  rw [List.append_assoc]
  rcases hs with rfl | rfl | rfl
  · have h1 := matchPatAt_exact SepKind.hyphenOpt [] p n (Or.inl ⟨rfl, Or.inl rfl⟩)
      hp hp2 hp5 hn hn3 hn5
    have h2 := reSearch_head_some SepKind.hyphenOpt _ _ h1
    unfold extract_video_code
    rw [h2]
    dsimp only
    rw [hzfill]
  · have h1 := matchPatAt_exact SepKind.hyphenOpt ['-'] p n (Or.inl ⟨rfl, Or.inr rfl⟩)
      hp hp2 hp5 hn hn3 hn5
    have h2 := reSearch_head_some SepKind.hyphenOpt _ _ h1
    unfold extract_video_code
    rw [h2]
    dsimp only
    rw [hzfill]
  · have hfail1 : reSearch SepKind.hyphenOpt (p ++ ([' '] ++ n)) = none :=
      reSearch_letters_space_none SepKind.hyphenOpt (Or.inl rfl) p n hp hn
    have hfail2 : reSearch SepKind.noSep (p ++ ([' '] ++ n)) = none :=
      reSearch_letters_space_none SepKind.noSep (Or.inr rfl) p n hp hn
    have h1 := matchPatAt_exact SepKind.spaceOpt [' '] p n (Or.inr (Or.inr ⟨rfl, Or.inr rfl⟩))
      hp hp2 hp5 hn hn3 hn5
    have h2 := reSearch_head_some SepKind.spaceOpt _ _ h1
    unfold extract_video_code
    rw [hfail1]
    dsimp only
    rw [hfail2]
    dsimp only
    rw [h2]
    dsimp only
    rw [hzfill]

/-- Witness for C1 amended: "cawd136" maps to "CAWD-136". -/
theorem extract_video_code_amended_witness :
    extract_video_code ("cawd".toList ++ [] ++ "136".toList) 0 =
        upperL "cawd".toList ++ '-' :: "136".toList ∧
      extract_video_code [] 0 = "UNKNOWN-".toList ++ (Nat.repr 0).toList :=
  extract_video_code_amended "cawd".toList [] "136".toList 0
    (by decide) (by decide) (by decide) (by decide) (by decide) (by decide) (Or.inl rfl)
